import Mathlib

/-!
# Verification of the flat-file batch-document processor

A shallow embedding of the positional flat-file processor: record models
(`Header`, `Transaction`, `Footer`, `Document`), their pydantic-style
constructors and renderers, the line validator, the parser/assembler, and
the mutation engine (update/add/delete transaction, update header, create).
Strings are modelled as `List Char`; monetary `Decimal` values with two
fractional digits are modelled as an integer number of cents; `round(x, 2)`
on `Decimal` values is modelled as round-half-to-even on cents.
-/

namespace FileProc

set_option maxRecDepth 10000

/-! ## Python string primitives -/

/-- Python whitespace test (ASCII subset relevant to this format). -/
def isWS (c : Char) : Bool :=
  c = ' ' || c = '\t' || c = '\n' || c = '\r' || c = '\x0b' || c = '\x0c'

/-- Python str.strip: drop whitespace from both ends. -/
def pyStrip (l : List Char) : List Char :=
  ((l.dropWhile isWS).reverse.dropWhile isWS).reverse

/-- Helper for str.title: the Bool flag records whether the previous
character was a letter (cased). -/
def pyTitleGo : Bool → List Char → List Char
  | _, [] => []
  | prev, c :: cs =>
    if c.isAlpha then
      (if prev then c.toLower else c.toUpper) :: pyTitleGo true cs
    else
      c :: pyTitleGo false cs

/-- Python str.title (ASCII model): first letter of each word uppercased,
the rest lowercased. -/
def pyTitle (l : List Char) : List Char := pyTitleGo false l

/-- The sanitizer applied by `Header.sanitize_strings`:
`value.strip().title()`. -/
def sanitize (l : List Char) : List Char := pyTitle (pyStrip l)

/-- Python str.rjust: pad on the left up to width `w` with `pad`. -/
def rjust (w : ℕ) (pad : Char) (l : List Char) : List Char :=
  List.replicate (w - l.length) pad ++ l

/-- Python slice `l[a:b]` (with the usual clamping). -/
def slice (a b : ℕ) (l : List Char) : List Char :=
  (l.drop a).take (b - a)

/-- Python str.split on the line delimiter: splits at every occurrence,
keeping empty pieces. -/
def splitNl : List Char → List (List Char)
  | [] => [[]]
  | c :: cs =>
    if c = '\n' then [] :: splitNl cs
    else
      match splitNl cs with
      | [] => [[c]]
      | l :: ls => (c :: l) :: ls

/-! ## Decimal digit strings -/

/-- Base-10 digits of `n`, least significant first, by structural
recursion on a fuel bound (`n` itself always suffices). -/
def digitsRev : ℕ → ℕ → List ℕ
  | 0, _ => []
  | fuel + 1, n => if n = 0 then [] else n % 10 :: digitsRev fuel (n / 10)

/-- Decimal rendering of a natural number, most significant digit first,
as Python's `str` produces it. -/
def natToChars (n : ℕ) : List Char :=
  if n = 0 then ['0'] else ((digitsRev n n).map Nat.digitChar).reverse

/-- Decimal rendering of an integer as Python's `str` produces it. -/
def intToChars (n : ℤ) : List Char :=
  if n < 0 then '-' :: natToChars (-n).toNat else natToChars n.toNat

/-- Numeric value of a digit character. -/
def charVal (c : Char) : ℕ := c.toNat - 48

/-- Accumulate a most-significant-first digit string into a number. -/
def charsToNat (l : List Char) : ℕ :=
  l.foldl (fun a c => 10 * a + charVal c) 0

/-- Parse a non-empty all-digit string into a natural number; `none`
models Python's `ValueError` from `int(...)` on malformed input (and
pydantic's failure coercing a malformed string to `int`). -/
def parseNat? (l : List Char) : Option ℕ :=
  if l ≠ [] ∧ l.all Char.isDigit then some (charsToNat l) else none

/-! ## Monetary rounding

Python's `round` on `Decimal` uses the default context rounding mode
`ROUND_HALF_EVEN`. `round(x, 2)` is therefore round-half-to-even at the
second fractional digit, i.e. half-even rounding of `100 * x` to an
integer number of cents. -/

/-- Round the fraction `n / d` (with `d > 0`) to the nearest integer,
ties to even, using only integer arithmetic: `f` is the floor of the
fraction and `r2` is twice the remainder, so `r2 < d` means the
fractional part is below one half and `r2 = d` is an exact tie. -/
def roundHalfEvenFrac (n d : ℤ) : ℤ :=
  let f := n / d
  let r2 := 2 * (n - f * d)
  if r2 < d then f
  else if d < r2 then f + 1
  else if f % 2 = 0 then f else f + 1

/-- `round(q, 2)` expressed in cents: round `100 * q` to the nearest
integer with ties to even (`decimal.ROUND_HALF_EVEN`, Python's default
`round` behaviour on `Decimal`). -/
def roundCents (q : ℚ) : ℤ := roundHalfEvenFrac (100 * q.num) (q.den : ℤ)

/-- Modelled from the spec: `round_half_up(amount, 2 decimals) × 100`,
the encoding the specification claims for monetary values — rounding to
cents with ties going upward. Used only to compare the specified codec
against the implemented one. -/
def specRoundHalfUpCents (q : ℚ) : ℤ := ⌊100 * q + 1/2⌋

/-! ## Record models -/

/-- Currency enum: the three supported currency codes. -/
inductive Currency : Type
  | PLN
  | EUR
  | USD
deriving DecidableEq, Repr

/-- The three-character code of a currency, as rendered and parsed. -/
def Currency.chars : Currency → List Char
  | .PLN => ['P', 'L', 'N']
  | .EUR => ['E', 'U', 'R']
  | .USD => ['U', 'S', 'D']

/-- Parse a currency code; `none` models pydantic's rejection of an
unsupported value. -/
def Currency.parse? (l : List Char) : Option Currency :=
  if l = ['P', 'L', 'N'] then some .PLN
  else if l = ['E', 'U', 'R'] then some .EUR
  else if l = ['U', 'S', 'D'] then some .USD
  else none

/-- Header record: four sanitized text fields (type code "01" and the
frozen defaults are implicit in the renderer). -/
structure Header : Type where
  name : List Char
  surname : List Char
  patrynomic : List Char
  address : List Char
deriving DecidableEq, Repr

/-- pydantic construction of a `Header`: the `min_length`/`max_length`
bounds are checked on the raw values, after which the `after`-mode
validator `sanitize_strings` strips and title-cases each field. -/
def Header.make? (name surname patrynomic address : List Char) : Option Header :=
  if 1 ≤ name.length ∧ name.length ≤ 28
      ∧ 1 ≤ surname.length ∧ surname.length ≤ 30
      ∧ 1 ≤ patrynomic.length ∧ patrynomic.length ≤ 30
      ∧ 1 ≤ address.length ∧ address.length ≤ 30 then
    some ⟨sanitize name, sanitize surname, sanitize patrynomic, sanitize address⟩
  else none

/-- Transaction record: 1-based counter and amount in cents (the stored
`Decimal` always carries exactly two fractional digits, so it is an
integer number of cents). -/
structure Transaction : Type where
  counter : ℤ
  amountCents : ℤ
  currency : Currency
deriving DecidableEq, Repr

/-- pydantic construction of a `Transaction`: the `before`-mode validator
rounds the amount to two decimals (half-even), then the field constraints
`1 ≤ counter ≤ 20000` and `amount ≥ 0` are checked. -/
def Transaction.make? (counter : ℤ) (amount : ℚ) (currency : Currency) :
    Option Transaction :=
  let cents := roundCents amount
  if 1 ≤ counter ∧ counter ≤ 20000 ∧ 0 ≤ cents then
    some ⟨counter, cents, currency⟩
  else none

/-- Footer record: transaction count and control sum in cents. -/
structure Footer : Type where
  total_counter : ℤ
  control_sumCents : ℤ
deriving DecidableEq, Repr

/-- pydantic construction of a `Footer`: the `before`-mode validator
rounds the control sum to two decimals (half-even), then the constraints
`total_counter ≥ 1` and `control_sum ≥ 0` are checked. -/
def Footer.make? (total_counter : ℤ) (control_sum : ℚ) : Option Footer :=
  let cents := roundCents control_sum
  if 1 ≤ total_counter ∧ 0 ≤ cents then
    some ⟨total_counter, cents⟩
  else none

/-- Document aggregate. -/
structure Document : Type where
  header : Header
  transactions : List Transaction
  footer : Footer
deriving DecidableEq, Repr

/-! ## Renderers (the serializer side)

Each pydantic `render` serializer produces the 120-character payload
followed by the line delimiter; `payload` is the line without the
delimiter. -/

/-- `Header.render` without the trailing delimiter. -/
def Header.payload (h : Header) : List Char :=
  ['0', '1'] ++ rjust 28 ' ' h.name ++ rjust 30 ' ' h.surname
    ++ rjust 30 ' ' h.patrynomic ++ rjust 30 ' ' h.address

/-- `Header.render`: type code, four right-justified fields, delimiter. -/
def Header.render (h : Header) : List Char := h.payload ++ ['\n']

/-- `Transaction.amount_to_str`: the stored amount is already rounded, so
this is the decimal rendering of the cents value. -/
def Transaction.amountChars (t : Transaction) : List Char := intToChars t.amountCents

/-- `Transaction.render` without the trailing delimiter. -/
def Transaction.payload (t : Transaction) : List Char :=
  ['0', '2'] ++ rjust 6 '0' (intToChars t.counter)
    ++ rjust 12 '0' t.amountChars ++ rjust 3 ' ' t.currency.chars
    ++ List.replicate 97 ' '

/-- `Transaction.render`: type code, zero-padded counter and amount,
currency, reserved blanks, delimiter. -/
def Transaction.render (t : Transaction) : List Char := t.payload ++ ['\n']

/-- `Footer.render` without the trailing delimiter. -/
def Footer.payload (f : Footer) : List Char :=
  ['0', '3'] ++ rjust 6 '0' (intToChars f.total_counter)
    ++ rjust 12 '0' (intToChars f.control_sumCents) ++ List.replicate 100 ' '

/-- `Footer.render`: type code, zero-padded count and control sum,
reserved blanks, delimiter. -/
def Footer.render (f : Footer) : List Char := f.payload ++ ['\n']

/-- The footer line as it survives `str.strip` of the whole file: the
trailing reserved blanks (and the delimiter) are stripped away, leaving
the type code and the two numeric fields. -/
def Footer.core (f : Footer) : List Char :=
  ['0', '3'] ++ rjust 6 '0' (intToChars f.total_counter)
    ++ rjust 12 '0' (intToChars f.control_sumCents)

deriving instance DecidableEq for Except

/-- `__write_document_to_file`: the serialized text is the concatenation
of the rendered header, transactions and footer. -/
def writeDocument (d : Document) : List Char :=
  d.header.render ++ (d.transactions.map Transaction.render).flatten ++ d.footer.render

/-! ## Validator -/

/-- The structural failures of `__validate` (plus the `IndexError` Python
would raise on an empty line list). -/
inductive VError : Type
  | lineTooLong (i : ℕ)
  | badHeader
  | badFooter
  | tooManyRecords
  | noTransaction
  | emptyLines
deriving DecidableEq, Repr

/-- The index of the first line whose length exceeds the limit — the
`for i, line in enumerate(lines)` loop of `__validate`. -/
def firstLongIdx (maxLen : ℕ) : List (List Char) → Option ℕ
  | [] => none
  | l :: ls =>
    if maxLen < l.length then some 0
    else (firstLongIdx maxLen ls).map (· + 1)

/-- `__validate`: line-length loop first, then header prefix, footer
prefix, record count and transaction-presence checks, in that order,
failing on the first violation. -/
def validate (maxLen maxTx : ℕ) (lines : List (List Char)) : Except VError Unit :=
  match firstLongIdx maxLen lines with
  | some i => .error (.lineTooLong i)
  | none =>
    match lines with
    | [] => .error .emptyLines
    | first :: rest =>
      if first.take 2 ≠ ['0', '1'] then .error .badHeader
      else if ((first :: rest).getLast (List.cons_ne_nil _ _)).take 2 ≠ ['0', '3'] then
        .error .badFooter
      else if maxTx + 2 < (first :: rest).length then .error .tooManyRecords
      else if ¬ (rest.dropLast.any (fun l => l.take 2 = ['0', '2'])) then
        .error .noTransaction
      else .ok ()

/-! ## Parser (assembler) -/

/-- Failures of `__get_document`: any exception while building a record
becomes a `ValidationException` (`fieldError`); a footer/last-counter
mismatch is the reconciliation failure; `indexError` is the uncaught
`IndexError` on `transactions[-1]` when no transaction was parsed. -/
inductive PError : Type
  | fieldError
  | reconcileMismatch
  | indexError
deriving DecidableEq, Repr

/-- Slice line 0 into the `Header` fields and construct the `Header`. -/
def parseHeaderLine (l : List Char) : Option Header :=
  Header.make? (slice 2 30 l) (slice 30 60 l) (slice 60 90 l) (slice 90 120 l)

/-- Slice an interior line into a `Transaction`: the counter string is
coerced to `int`, the amount is the integer cents payload divided by 100
(`float(int(line[8:20]) / 100)`, value-exact for any 12-digit payload). -/
def parseTransactionLine (l : List Char) : Option Transaction := do
  let c ← parseNat? (slice 2 8 l)
  let a ← parseNat? (slice 8 20 l)
  let cur ← Currency.parse? (slice 20 23 l)
  Transaction.make? (c : ℤ) (mkRat (a : ℤ) 100) cur

/-- Slice the last line into a `Footer`. -/
def parseFooterLine (l : List Char) : Option Footer := do
  let tc ← parseNat? (slice 2 8 l)
  let cs ← parseNat? (slice 8 20 l)
  Footer.make? (tc : ℤ) (mkRat (cs : ℤ) 100)

/-- Parse every interior line, in order, failing on the first bad one. -/
def parseTransactions : List (List Char) → Option (List Transaction)
  | [] => some []
  | l :: ls => do
    let t ← parseTransactionLine l
    let ts ← parseTransactions ls
    pure (t :: ts)

/-- `__get_document`: build header from line 0, transactions from the
interior lines, footer from the last line; then check the cross-record
invariant `transactions[-1].counter == footer.total_counter`. -/
def getDocument (lines : List (List Char)) : Except PError Document :=
  match lines with
  | [] => .error .indexError
  | first :: rest =>
    match parseHeaderLine first with
    | none => .error .fieldError
    | some header =>
      match parseTransactions rest.dropLast with
      | none => .error .fieldError
      | some ts =>
        match parseFooterLine ((first :: rest).getLast (List.cons_ne_nil _ _)) with
        | none => .error .fieldError
        | some footer =>
          match ts.getLast? with
          | none => .error .indexError
          | some lastT =>
            if lastT.counter ≠ footer.total_counter then .error .reconcileMismatch
            else .ok ⟨header, ts, footer⟩

/-- Failures of `read` over an in-memory text: an empty file, a
structural validation failure, or a parse failure. -/
inductive ReadError : Type
  | emptyFile
  | vErr (e : VError)
  | pErr (e : PError)
deriving DecidableEq, Repr

/-- `read` over the full text: strip the text, split it on the
delimiter, run the validator, then assemble the `Document`. -/
def readDoc (maxLen maxTx : ℕ) (text : List Char) : Except ReadError Document :=
  let content := pyStrip text
  if content.isEmpty then .error .emptyFile
  else
    let lines := splitNl content
    match validate maxLen maxTx lines with
    | .error e => .error (.vErr e)
    | .ok _ =>
      match getDocument lines with
      | .error e => .error (.pErr e)
      | .ok d => .ok d

/-! ## Mutation engine -/

/-- Failures of the mutation operations: `inputError` is a `ValueError`
on a caller argument, `capacityError` the `WriteException` raised when
the transaction limit is reached, `readErr` a failure of the initial
`read`, `modelError` a pydantic validation failure while building a new
record, and `indexError` an out-of-range list access. -/
inductive OpError : Type
  | inputError
  | capacityError
  | readErr (e : ReadError)
  | modelError
  | indexError
deriving DecidableEq, Repr

/-- Sum of the transaction amounts, in cents (`Decimal` addition is
exact, so the control sum is the exact sum of the cent values). -/
def sumCents (ts : List Transaction) : ℤ :=
  (ts.map Transaction.amountCents).sum

/-- `__create_footer`: total counter is the number of transactions,
control sum the sum of their amounts, passed through the `Footer`
constructor (whose `total_counter ≥ 1` bound can fail). -/
def createFooter (ts : List Transaction) : Option Footer :=
  Footer.make? (ts.length : ℤ) (mkRat (sumCents ts) 100)

/-- Document-level core of `update_transaction` (everything after the
initial `read`): range-check the id against the footer, build the
replacement transaction with the same counter, replace it in place,
recompute the footer. -/
def updateTransactionDoc (maxTx : ℕ) (doc : Document) (id : ℤ) (amount : ℚ)
    (currency : Currency) : Except OpError Document :=
  if id ≤ 0 ∨ (maxTx : ℤ) < id then .error .inputError
  else if doc.footer.total_counter < id then .error .inputError
  else
    match Transaction.make? id amount currency with
    | none => .error .modelError
    | some new =>
      if doc.transactions.length ≤ (id - 1).toNat then .error .indexError
      else
        let ts := doc.transactions.set (id - 1).toNat new
        match createFooter ts with
        | none => .error .modelError
        | some f => .ok ⟨doc.header, ts, f⟩

/-- Document-level core of `add_transaction`: capacity check against the
footer counter, append a transaction numbered `total_counter + 1`,
recompute the footer. -/
def addTransactionDoc (maxTx : ℕ) (doc : Document) (amount : ℚ)
    (currency : Currency) : Except OpError Document :=
  if doc.footer.total_counter = (maxTx : ℤ) then .error .capacityError
  else
    match Transaction.make? (doc.footer.total_counter + 1) amount currency with
    | none => .error .modelError
    | some new =>
      let ts := doc.transactions ++ [new]
      match createFooter ts with
      | none => .error .modelError
      | some f => .ok ⟨doc.header, ts, f⟩

/-- Decrement the counters of all transactions at positions `≥ i`
(the `for transaction in transactions[id - 1:]` loop; the assignment
bypasses validation). -/
def decrementFrom (i : ℕ) (ts : List Transaction) : List Transaction :=
  ts.mapIdx (fun j t => if i ≤ j then { t with counter := t.counter - 1 } else t)

/-- Document-level core of `delete_transaction`: range-check the id
against the footer, drop the entry at position `id - 1`, decrement the
counters of all later entries, recompute the footer. -/
def deleteTransactionDoc (doc : Document) (id : ℤ) : Except OpError Document :=
  if id ≤ 0 ∨ doc.footer.total_counter < id then .error .inputError
  else if doc.transactions.length ≤ (id - 1).toNat then .error .indexError
  else
    let ts := decrementFrom (id - 1).toNat (doc.transactions.eraseIdx (id - 1).toNat)
    match createFooter ts with
    | none => .error .modelError
    | some f => .ok ⟨doc.header, ts, f⟩

/-- Document-level core of `update_header` (after the all-empty
short-circuit): each supplied non-empty field is assigned by `setattr`,
which with pydantic's default configuration does not run the field
validators — the raw value is stored unsanitized. -/
def updateHeaderDoc (doc : Document) (name surname patrynomic address : List Char) :
    Document :=
  let h0 := doc.header
  let h1 := if name.isEmpty then h0 else { h0 with name := name }
  let h2 := if surname.isEmpty then h1 else { h1 with surname := surname }
  let h3 := if patrynomic.isEmpty then h2 else { h2 with patrynomic := patrynomic }
  let h4 := if address.isEmpty then h3 else { h3 with address := address }
  ⟨h4, doc.transactions, doc.footer⟩

/-- File-level `update_transaction`: argument range check, read, mutate,
serialize. The result is the text written back to storage. -/
def updateTransactionOp (maxLen maxTx : ℕ) (text : List Char) (id : ℤ)
    (amount : ℚ) (currency : Currency) : Except OpError (List Char) :=
  if id ≤ 0 ∨ (maxTx : ℤ) < id then .error .inputError
  else
    match readDoc maxLen maxTx text with
    | .error e => .error (.readErr e)
    | .ok doc =>
      match updateTransactionDoc maxTx doc id amount currency with
      | .error e => .error e
      | .ok d => .ok (writeDocument d)

/-- File-level `add_transaction`: read, mutate, serialize. -/
def addTransactionOp (maxLen maxTx : ℕ) (text : List Char) (amount : ℚ)
    (currency : Currency) : Except OpError (List Char) :=
  match readDoc maxLen maxTx text with
  | .error e => .error (.readErr e)
  | .ok doc =>
    match addTransactionDoc maxTx doc amount currency with
    | .error e => .error e
    | .ok d => .ok (writeDocument d)

/-- File-level `delete_transaction`: read, mutate, serialize. -/
def deleteTransactionOp (maxLen maxTx : ℕ) (text : List Char) (id : ℤ) :
    Except OpError (List Char) :=
  match readDoc maxLen maxTx text with
  | .error e => .error (.readErr e)
  | .ok doc =>
    match deleteTransactionDoc doc id with
    | .error e => .error e
    | .ok d => .ok (writeDocument d)

/-- File-level `update_header`. The result records how many storage
reads and writes were performed together with the text stored afterwards
(unchanged when no write happened): with every supplied field empty the
operation short-circuits before touching storage. -/
def updateHeaderOp (maxLen maxTx : ℕ) (text : List Char)
    (name surname patrynomic address : List Char) :
    Except OpError (ℕ × ℕ × List Char) :=
  if name.isEmpty ∧ surname.isEmpty ∧ patrynomic.isEmpty ∧ address.isEmpty then
    .ok (0, 0, text)
  else
    match readDoc maxLen maxTx text with
    | .error e => .error (.readErr e)
    | .ok doc =>
      .ok (1, 1, writeDocument (updateHeaderDoc doc name surname patrynomic address))

/-- File-level `create`: footer derived from the transactions, document
serialized unconditionally (no read of existing content). -/
def createOp (header : Header) (ts : List Transaction) : Except OpError (List Char) :=
  match createFooter ts with
  | none => .error .modelError
  | some f => .ok (writeDocument ⟨header, ts, f⟩)

/-! ## Validity (the spec's "valid Document") -/

/-- A text field is sanitized when stripping and title-casing leave it
unchanged. -/
def SanitizedField (l : List Char) : Prop :=
  pyStrip l = l ∧ pyTitle l = l

/-- A header field is well-formed at width `w`: sanitized, non-empty,
within its declared width and free of the line delimiter. -/
def HeaderFieldWF (w : ℕ) (l : List Char) : Prop :=
  SanitizedField l ∧ 1 ≤ l.length ∧ l.length ≤ w ∧ '\n' ∉ l

/-- A well-formed header: each field fits its declared width. -/
def Header.WF (h : Header) : Prop :=
  HeaderFieldWF 28 h.name ∧ HeaderFieldWF 30 h.surname
    ∧ HeaderFieldWF 30 h.patrynomic ∧ HeaderFieldWF 30 h.address

/-- A well-formed transaction: counter within the model bounds and the
amount a non-negative cents value fitting the 12-character field. -/
def Transaction.WF (t : Transaction) : Prop :=
  1 ≤ t.counter ∧ t.counter ≤ 20000 ∧ 0 ≤ t.amountCents ∧ t.amountCents < 10 ^ 12

/-- Transaction counters form the contiguous sequence `1..N` in order. -/
def Contiguous (ts : List Transaction) : Prop :=
  ts.map Transaction.counter = (List.range ts.length).map (fun i : ℕ => (i : ℤ) + 1)

/-- The spec's valid `Document`: sanitized in-width header, a non-empty
contiguously numbered transaction sequence within the capacity bound,
every amount in range, a derived footer, and a control sum fitting its
12-character field. -/
def Document.Valid (d : Document) : Prop :=
  d.header.WF
    ∧ d.transactions ≠ []
    ∧ d.transactions.length ≤ 20000
    ∧ (∀ t ∈ d.transactions, t.WF)
    ∧ Contiguous d.transactions
    ∧ d.footer.total_counter = (d.transactions.length : ℤ)
    ∧ d.footer.control_sumCents = sumCents d.transactions
    ∧ sumCents d.transactions < 10 ^ 12


/-! ## Concrete sample documents (used to instantiate the theorems) -/

/-- A sanitized sample header. -/
def exHeader : Header :=
  ⟨['J', 'o', 'h', 'n'], ['D', 'o', 'e'], ['S', 'm', 'i', 't', 'h'],
    ['M', 'a', 'i', 'n']⟩

/-- A one-transaction valid document (1.00 USD). -/
def exDoc1 : Document := ⟨exHeader, [⟨1, 100, .USD⟩], ⟨1, 100⟩⟩

/-- A two-transaction valid document (1.00 USD and 2.50 EUR). -/
def exDoc2 : Document := ⟨exHeader, [⟨1, 100, .USD⟩, ⟨2, 250, .EUR⟩], ⟨2, 350⟩⟩

/-! ## Lemmas: digit strings -/

theorem digitsRev_eq_digits : ∀ fuel n : ℕ, n ≤ fuel → digitsRev fuel n = Nat.digits 10 n
  | 0, n, h => by
    have : n = 0 := Nat.le_zero.mp h
    subst this
    simp [digitsRev]
  | fuel + 1, n, h => by
    by_cases hn : n = 0
    · subst hn; simp [digitsRev]
    · have hpos : 0 < n := Nat.pos_of_ne_zero hn
      have hdiv : n / 10 ≤ fuel := by
        have := Nat.div_lt_self hpos (by norm_num : 1 < 10)
        omega
      rw [Nat.digits_def' (by norm_num : (1:ℕ) < 10) hpos]
      simp only [digitsRev, if_neg hn]
      rw [digitsRev_eq_digits fuel (n / 10) hdiv]

theorem natToChars_eq_digits {n : ℕ} (hn : n ≠ 0) :
    natToChars n = ((Nat.digits 10 n).map Nat.digitChar).reverse := by
  unfold natToChars
  rw [if_neg hn, digitsRev_eq_digits n n le_rfl]

theorem charVal_digitChar {d : ℕ} (h : d < 10) : charVal d.digitChar = d := by
  interval_cases d <;> rfl

theorem isDigit_digitChar {d : ℕ} (h : d < 10) : d.digitChar.isDigit = true := by
  interval_cases d <;> rfl

theorem natToChars_ne_nil (n : ℕ) : natToChars n ≠ [] := by
  by_cases hn : n = 0
  · subst hn; simp [natToChars]
  · rw [natToChars_eq_digits hn]
    simp [Nat.digits_ne_nil_iff_ne_zero.mpr hn]

theorem natToChars_all_digits (n : ℕ) : ∀ c ∈ natToChars n, c.isDigit = true := by
  by_cases hn : n = 0
  · subst hn; intro c hc; simp [natToChars] at hc; subst hc; rfl
  · rw [natToChars_eq_digits hn]
    intro c hc
    simp only [List.mem_reverse, List.mem_map] at hc
    obtain ⟨d, hd, rfl⟩ := hc
    exact isDigit_digitChar (Nat.digits_lt_base (by norm_num) hd)

theorem natToChars_length_le {n k : ℕ} (h : n < 10 ^ k) (hk : 1 ≤ k) :
    (natToChars n).length ≤ k := by
  by_cases hn : n = 0
  · subst hn; simpa [natToChars] using hk
  · rw [natToChars_eq_digits hn]
    simp only [List.length_reverse, List.length_map]
    rw [Nat.digits_len 10 n (by norm_num) hn]
    have hlog : Nat.log 10 n < k := (Nat.lt_pow_iff_log_lt (by norm_num : 1 < 10) hn).mp h
    omega

theorem charsToNat_cons (c : Char) (l : List Char) :
    charsToNat (c :: l) = l.foldl (fun a d => 10 * a + charVal d) (charVal c) := by
  simp [charsToNat]

theorem charsToNat_append (l1 l2 : List Char) :
    charsToNat (l1 ++ l2) = l2.foldl (fun a d => 10 * a + charVal d) (charsToNat l1) := by
  simp [charsToNat, List.foldl_append]

theorem charsToNat_reverse_map {ds : List ℕ} (h : ∀ d ∈ ds, d < 10) :
    charsToNat ((ds.map Nat.digitChar).reverse) = Nat.ofDigits 10 ds := by
  induction ds with
  | nil => rfl
  | cons d ds ih =>
    have hd : d < 10 := h d (List.mem_cons_self _ _)
    have hds : ∀ x ∈ ds, x < 10 := fun x hx => h x (List.mem_cons_of_mem _ hx)
    simp only [List.map_cons, List.reverse_cons]
    rw [charsToNat_append, ih hds]
    simp only [List.foldl_cons, List.foldl_nil, charVal_digitChar hd]
    rw [Nat.ofDigits_cons]
    ring

theorem charsToNat_natToChars (n : ℕ) : charsToNat (natToChars n) = n := by
  by_cases hn : n = 0
  · subst hn; rfl
  · rw [natToChars_eq_digits hn,
      charsToNat_reverse_map (fun d hd => Nat.digits_lt_base (by norm_num) hd)]
    exact_mod_cast Nat.ofDigits_digits 10 n

theorem charsToNat_replicate_zero_append (k : ℕ) (l : List Char) :
    charsToNat (List.replicate k '0' ++ l) = charsToNat l := by
  induction k with
  | zero => simp
  | succ k ih =>
    simp only [List.replicate_succ, List.cons_append]
    rw [charsToNat_cons]
    have : charVal '0' = 0 := rfl
    rw [this]
    simpa [charsToNat] using ih

theorem parseNat?_rjust_natToChars (w n : ℕ) :
    parseNat? (rjust w '0' (natToChars n)) = some n := by
  unfold parseNat? rjust
  rw [if_pos]
  · rw [charsToNat_replicate_zero_append, charsToNat_natToChars]
  · constructor
    · simp [natToChars_ne_nil n]
    · rw [List.all_append, Bool.and_eq_true]
      constructor
      · simp only [List.all_eq_true]
        intro c hc
        rw [List.eq_of_mem_replicate hc]
        rfl
      · simp only [List.all_eq_true]
        exact fun c hc => natToChars_all_digits n c hc

theorem rjust_length {w : ℕ} {l : List Char} (pad : Char) (h : l.length ≤ w) :
    (rjust w pad l).length = w := by
  simp [rjust]
  omega

theorem intToChars_ofNat (n : ℕ) : intToChars (n : ℤ) = natToChars n := by
  simp [intToChars]


/-! ## Lemmas: slicing and padding -/

theorem slice_append {a b : ℕ} (pre mid post : List Char)
    (hpre : pre.length = a) (hmid : mid.length = b - a) :
    slice a b (pre ++ (mid ++ post)) = mid := by
  unfold slice
  subst hpre
  rw [List.drop_left, ← hmid, List.take_left]

theorem slice_of_exact {a b : ℕ} (pre mid : List Char)
    (hpre : pre.length = a) (hmid : mid.length = b - a) :
    slice a b (pre ++ mid) = mid := by
  have := slice_append pre mid [] hpre hmid
  simpa using this

theorem rjust_eq_self {w : ℕ} {l : List Char} (pad : Char) (h : w ≤ l.length) :
    rjust w pad l = l := by
  simp [rjust, Nat.sub_eq_zero_of_le h]

/-! ## Lemmas: stripping -/

theorem dropWhile_append_of_forall {p : Char → Bool} {l1 : List Char}
    (l2 : List Char) (h : ∀ c ∈ l1, p c = true) :
    (l1 ++ l2).dropWhile p = l2.dropWhile p := by
  induction l1 with
  | nil => simp
  | cons c l1 ih =>
    have hc : p c = true := h c (List.mem_cons_self _ _)
    simp only [List.cons_append, List.dropWhile_cons, hc, if_true]
    exact ih (fun x hx => h x (List.mem_cons_of_mem _ hx))

theorem dropWhile_cons_of_neg {p : Char → Bool} {c : Char} (l : List Char)
    (h : ¬ p c = true) : (c :: l).dropWhile p = c :: l := by
  simp [List.dropWhile_cons, h]

/-- Stripping text that begins and ends with non-whitespace characters and
is followed by pure whitespace recovers exactly the text. -/
theorem pyStrip_sandwich {body tail : List Char}
    (hne : body ≠ [])
    (hhead : isWS (body.head hne) = false)
    (hlast : isWS (body.getLast hne) = false)
    (htail : ∀ c ∈ tail, isWS c = true) :
    pyStrip (body ++ tail) = body := by
  unfold pyStrip
  have h1 : (body ++ tail).dropWhile isWS = body ++ tail := by
    obtain ⟨c, rest, rfl⟩ := List.exists_cons_of_ne_nil hne
    have hc : isWS c = false := by simpa using hhead
    rw [List.cons_append]
    exact dropWhile_cons_of_neg _ (by simp [hc])
  rw [h1, List.reverse_append]
  rw [dropWhile_append_of_forall _ (fun x hx => htail x (by simpa using hx))]
  have hrev : body.reverse = body.getLast hne :: body.dropLast.reverse := by
    conv_lhs => rw [← List.dropLast_append_getLast hne]
    rw [List.reverse_append]
    simp
  rw [hrev, dropWhile_cons_of_neg _ (by simp [hlast]), ← hrev, List.reverse_reverse]

/-- Stripping already-stripped text is the identity. -/
theorem pyStrip_eq_self_iff_aux {l : List Char} (h : pyStrip l = l) :
    l.dropWhile isWS = l := by
  have hsfx : l.dropWhile isWS <:+ l := List.dropWhile_suffix _
  have h1 : (pyStrip l).length ≤ (l.dropWhile isWS).length := by
    unfold pyStrip
    have : ((l.dropWhile isWS).reverse.dropWhile isWS) <:+ (l.dropWhile isWS).reverse :=
      List.dropWhile_suffix _
    have := this.length_le
    simpa using this
  have h2 : (l.dropWhile isWS).length ≤ l.length := hsfx.length_le
  rw [h] at h1
  exact hsfx.eq_of_length (by omega)

/-- A stripped list survives prepending whitespace padding. -/
theorem pyStrip_replicate_append {f : List Char} (k : ℕ) (h : pyStrip f = f) :
    pyStrip (List.replicate k ' ' ++ f) = f := by
  unfold pyStrip
  rw [dropWhile_append_of_forall _ (fun c hc => by rw [List.eq_of_mem_replicate hc]; rfl)]
  rw [pyStrip_eq_self_iff_aux h]
  conv_lhs => rw [← pyStrip_eq_self_iff_aux h]
  exact h

/-! ## Lemmas: splitting on the delimiter -/

theorem splitNl_cons_of_ne {c : Char} (cs : List Char) (h : c ≠ '\n') :
    splitNl (c :: cs) =
      match splitNl cs with
      | [] => [[c]]
      | l :: ls => (c :: l) :: ls := by
  simp [splitNl, h]

theorem splitNl_ne_nil (l : List Char) : splitNl l ≠ [] := by
  induction l with
  | nil => simp [splitNl]
  | cons c cs ih =>
    by_cases hc : c = '\n'
    · subst hc; simp [splitNl]
    · rw [splitNl_cons_of_ne cs hc]
      match hs : splitNl cs with
      | [] => simp
      | l :: ls => simp

theorem splitNl_of_no_nl {l : List Char} (h : '\n' ∉ l) : splitNl l = [l] := by
  induction l with
  | nil => rfl
  | cons c cs ih =>
    have hc : c ≠ '\n' := fun hh => h (hh ▸ List.mem_cons_self _ _)
    rw [splitNl_cons_of_ne cs hc, ih (fun hh => h (List.mem_cons_of_mem _ hh))]

theorem splitNl_append_nl {l : List Char} (rest : List Char) (h : '\n' ∉ l) :
    splitNl (l ++ '\n' :: rest) = l :: splitNl rest := by
  induction l with
  | nil => simp [splitNl]
  | cons c cs ih =>
    have hc : c ≠ '\n' := fun hh => h (hh ▸ List.mem_cons_self _ _)
    rw [List.cons_append, splitNl_cons_of_ne _ hc,
      ih (fun hh => h (List.mem_cons_of_mem _ hh))]


/-! ## Lemmas: rendered line shapes -/

theorem Currency.chars_length (c : Currency) : c.chars.length = 3 := by
  cases c <;> rfl

theorem intToChars_nonneg {n : ℤ} (h : 0 ≤ n) : intToChars n = natToChars n.toNat := by
  simp [intToChars, not_lt.mpr h]

theorem intToChars_length_le {n : ℤ} {k : ℕ} (h0 : 0 ≤ n) (h : n < 10 ^ k)
    (hk : 1 ≤ k) : (intToChars n).length ≤ k := by
  rw [intToChars_nonneg h0]
  refine natToChars_length_le ?_ hk
  have : (n.toNat : ℤ) < ((10 : ℕ) ^ k : ℤ) := by
    rw [Int.toNat_of_nonneg h0]
    exact_mod_cast h
  exact_mod_cast this

theorem headerPayload_length {h : Header} (hw : h.WF) : h.payload.length = 120 := by
  obtain ⟨⟨_, _, hn, _⟩, ⟨_, _, hs, _⟩, ⟨_, _, hp, _⟩, ⟨_, _, ha, _⟩⟩ := hw
  simp only [Header.payload, List.length_append]
  rw [rjust_length ' ' hn, rjust_length ' ' hs, rjust_length ' ' hp, rjust_length ' ' ha]
  rfl

theorem txPayload_length {t : Transaction} (hw : t.WF) :
    t.payload.length = 120 := by
  obtain ⟨hc1, hc2, ha1, ha2⟩ := hw
  have hcl : (intToChars t.counter).length ≤ 6 :=
    intToChars_length_le (by omega) (by omega) (by norm_num)
  have hal : (intToChars t.amountCents).length ≤ 12 :=
    intToChars_length_le ha1 ha2 (by norm_num)
  simp only [Transaction.payload, Transaction.amountChars, List.length_append]
  rw [rjust_length '0' hcl, rjust_length '0' hal,
    rjust_length ' ' (by rw [Currency.chars_length])]
  rfl

theorem footerPayload_length {f : Footer} (h1 : 0 ≤ f.total_counter)
    (h2 : f.total_counter < 10 ^ 6) (h3 : 0 ≤ f.control_sumCents)
    (h4 : f.control_sumCents < 10 ^ 12) : f.payload.length = 120 := by
  have hcl : (intToChars f.total_counter).length ≤ 6 :=
    intToChars_length_le h1 h2 (by norm_num)
  have hal : (intToChars f.control_sumCents).length ≤ 12 :=
    intToChars_length_le h3 h4 (by norm_num)
  simp only [Footer.payload, List.length_append]
  rw [rjust_length '0' hcl, rjust_length '0' hal]
  rfl

theorem sumCents_nonneg {ts : List Transaction} (h : ∀ t ∈ ts, 0 ≤ t.amountCents) :
    0 ≤ sumCents ts := by
  unfold sumCents
  refine List.sum_nonneg ?_
  intro x hx
  simp only [List.mem_map] at hx
  obtain ⟨t, ht, rfl⟩ := hx
  exact h t ht

theorem flatten_render_length {ts : List Transaction}
    (h : ∀ t ∈ ts, t.render.length = 121) :
    ((ts.map Transaction.render).flatten).length = 121 * ts.length := by
  induction ts with
  | nil => rfl
  | cons t ts ih =>
    simp only [List.map_cons, List.flatten_cons, List.length_append]
    rw [h t (List.mem_cons_self _ _), ih (fun x hx => h x (List.mem_cons_of_mem _ hx))]
    simp only [List.length_cons]
    ring


/-! ## Lemmas: rounding -/

theorem roundHalfEvenFrac_mul_cancel (c d : ℤ) (hd : 0 < d) :
    roundHalfEvenFrac (c * d) d = c := by
  simp only [roundHalfEvenFrac]
  rw [Int.mul_ediv_cancel c (ne_of_gt hd)]
  have h0 : 2 * (c * d - c * d) = 0 := by ring
  rw [h0]
  simp [hd]

theorem roundCents_mkRat (c : ℤ) : roundCents (mkRat c 100) = c := by
  unfold roundCents
  have hden : (0 : ℤ) < ((mkRat c 100).den : ℤ) := by
    exact_mod_cast (mkRat c 100).den_pos
  have h2 : ((mkRat c 100).num : ℚ) / ((mkRat c 100).den : ℚ) = (c : ℚ) / 100 := by
    rw [Rat.num_div_den, Rat.mkRat_eq_div]
    norm_num
  have hden2 : ((mkRat c 100).den : ℚ) ≠ 0 := by positivity
  have h3 : ((mkRat c 100).num : ℚ) * 100 = (c : ℚ) * ((mkRat c 100).den : ℚ) := by
    field_simp at h2
    linarith
  have h4 : (mkRat c 100).num * 100 = c * ((mkRat c 100).den : ℤ) := by exact_mod_cast h3
  have h5 : 100 * (mkRat c 100).num = c * ((mkRat c 100).den : ℤ) := by linarith
  rw [h5, roundHalfEvenFrac_mul_cancel _ _ hden]

/-! ## Lemmas: characters -/

theorem isWS_of_isDigit {c : Char} (h : c.isDigit = true) : isWS c = false := by
  rw [Bool.eq_false_iff]
  intro hW
  simp only [isWS, Bool.or_eq_true, decide_eq_true_eq] at hW
  rcases hW with ((((rfl | rfl) | rfl) | rfl) | rfl) | rfl <;> exact absurd h (by decide)

theorem sanitize_rjust {f : List Char} (w : ℕ) (hs : SanitizedField f) :
    sanitize (rjust w ' ' f) = f := by
  obtain ⟨h1, h2⟩ := hs
  unfold sanitize rjust
  rw [pyStrip_replicate_append _ h1]
  exact h2


/-! ## Lemmas: slicing the rendered payloads -/

theorem Footer.payload_eq_core (f : Footer) :
    f.payload = f.core ++ List.replicate 100 ' ' := by
  simp [Footer.payload, Footer.core, List.append_assoc]

theorem Header.slice_name {h : Header} (hn : h.name.length ≤ 28) :
    slice 2 30 h.payload = rjust 28 ' ' h.name := by
  have e : h.payload = ['0', '1'] ++ (rjust 28 ' ' h.name ++
      (rjust 30 ' ' h.surname ++ rjust 30 ' ' h.patrynomic ++ rjust 30 ' ' h.address)) := by
    simp [Header.payload, List.append_assoc]
  rw [e]
  exact slice_append _ _ _ rfl (by rw [rjust_length ' ' hn])

theorem Header.slice_surname {h : Header} (hn : h.name.length ≤ 28)
    (hs : h.surname.length ≤ 30) :
    slice 30 60 h.payload = rjust 30 ' ' h.surname := by
  have e : h.payload = (['0', '1'] ++ rjust 28 ' ' h.name) ++ (rjust 30 ' ' h.surname ++
      (rjust 30 ' ' h.patrynomic ++ rjust 30 ' ' h.address)) := by
    simp [Header.payload, List.append_assoc]
  rw [e]
  refine slice_append _ _ _ ?_ (by rw [rjust_length ' ' hs])
  simp [rjust_length ' ' hn]

theorem Header.slice_patrynomic {h : Header} (hn : h.name.length ≤ 28)
    (hs : h.surname.length ≤ 30) (hp : h.patrynomic.length ≤ 30) :
    slice 60 90 h.payload = rjust 30 ' ' h.patrynomic := by
  have e : h.payload = (['0', '1'] ++ rjust 28 ' ' h.name ++ rjust 30 ' ' h.surname) ++
      (rjust 30 ' ' h.patrynomic ++ rjust 30 ' ' h.address) := by
    simp [Header.payload, List.append_assoc]
  rw [e]
  refine slice_append _ _ _ ?_ (by rw [rjust_length ' ' hp])
  simp [rjust_length ' ' hn, rjust_length ' ' hs]

theorem Header.slice_address {h : Header} (hn : h.name.length ≤ 28)
    (hs : h.surname.length ≤ 30) (hp : h.patrynomic.length ≤ 30)
    (ha : h.address.length ≤ 30) :
    slice 90 120 h.payload = rjust 30 ' ' h.address := by
  have e : h.payload = (['0', '1'] ++ rjust 28 ' ' h.name ++ rjust 30 ' ' h.surname ++
      rjust 30 ' ' h.patrynomic) ++ (rjust 30 ' ' h.address ++ []) := by
    simp [Header.payload, List.append_assoc]
  rw [e]
  refine slice_append _ _ _ ?_ (by rw [rjust_length ' ' ha])
  simp [rjust_length ' ' hn, rjust_length ' ' hs, rjust_length ' ' hp]

theorem txSlice_counter {t : Transaction}
    (hc : (intToChars t.counter).length ≤ 6) :
    slice 2 8 t.payload = rjust 6 '0' (intToChars t.counter) := by
  have e : t.payload = ['0', '2'] ++ (rjust 6 '0' (intToChars t.counter) ++
      (rjust 12 '0' t.amountChars ++ rjust 3 ' ' t.currency.chars ++
        List.replicate 97 ' ')) := by
    simp [Transaction.payload, List.append_assoc]
  rw [e]
  exact slice_append _ _ _ rfl (by rw [rjust_length '0' hc])

theorem Transaction.slice_amount {t : Transaction}
    (hc : (intToChars t.counter).length ≤ 6) (ha : t.amountChars.length ≤ 12) :
    slice 8 20 t.payload = rjust 12 '0' t.amountChars := by
  have e : t.payload = (['0', '2'] ++ rjust 6 '0' (intToChars t.counter)) ++
      (rjust 12 '0' t.amountChars ++ (rjust 3 ' ' t.currency.chars ++
        List.replicate 97 ' ')) := by
    simp [Transaction.payload, List.append_assoc]
  rw [e]
  refine slice_append _ _ _ ?_ (by rw [rjust_length '0' ha])
  simp [rjust_length '0' hc]

theorem Transaction.slice_currency {t : Transaction}
    (hc : (intToChars t.counter).length ≤ 6) (ha : t.amountChars.length ≤ 12) :
    slice 20 23 t.payload = t.currency.chars := by
  have e : t.payload = (['0', '2'] ++ rjust 6 '0' (intToChars t.counter) ++
      rjust 12 '0' t.amountChars) ++ (t.currency.chars ++ List.replicate 97 ' ') := by
    simp [Transaction.payload, List.append_assoc,
      rjust_eq_self ' ' (le_of_eq (Currency.chars_length t.currency).symm)]
  rw [e]
  refine slice_append _ _ _ ?_ ?_
  · simp [rjust_length '0' hc, rjust_length '0' ha]
  · rw [Currency.chars_length]

theorem footerSlice_counter {f : Footer}
    (hc : (intToChars f.total_counter).length ≤ 6) :
    slice 2 8 f.core = rjust 6 '0' (intToChars f.total_counter) := by
  have e : f.core = ['0', '3'] ++ (rjust 6 '0' (intToChars f.total_counter) ++
      rjust 12 '0' (intToChars f.control_sumCents)) := by
    simp [Footer.core, List.append_assoc]
  rw [e]
  exact slice_append _ _ _ rfl (by rw [rjust_length '0' hc])

theorem Footer.slice_sum {f : Footer}
    (hc : (intToChars f.total_counter).length ≤ 6)
    (ha : (intToChars f.control_sumCents).length ≤ 12) :
    slice 8 20 f.core = rjust 12 '0' (intToChars f.control_sumCents) := by
  have e : f.core = (['0', '3'] ++ rjust 6 '0' (intToChars f.total_counter)) ++
      (rjust 12 '0' (intToChars f.control_sumCents) ++ []) := by
    simp [Footer.core, List.append_assoc]
  rw [e]
  refine slice_append _ _ _ ?_ (by rw [rjust_length '0' ha])
  simp [rjust_length '0' hc]


/-! ## Lemmas: parsing rendered lines -/

theorem Currency.parse?_chars (c : Currency) : Currency.parse? c.chars = some c := by
  cases c <;> rfl

theorem parseNat?_rjust_intToChars {n : ℤ} (w : ℕ) (h : 0 ≤ n) :
    parseNat? (rjust w '0' (intToChars n)) = some n.toNat := by
  rw [intToChars_nonneg h, parseNat?_rjust_natToChars]

theorem parseHeaderLine_payload {h : Header} (hw : h.WF) :
    parseHeaderLine h.payload = some h := by
  obtain ⟨⟨hns, _, hn, _⟩, ⟨hss, _, hs, _⟩, ⟨hps, _, hp, _⟩, ⟨has, _, ha, _⟩⟩ := hw
  unfold parseHeaderLine
  rw [Header.slice_name hn, Header.slice_surname hn hs,
    Header.slice_patrynomic hn hs hp, Header.slice_address hn hs hp ha]
  unfold Header.make?
  rw [if_pos]
  · rw [sanitize_rjust 28 hns, sanitize_rjust 30 hss,
      sanitize_rjust 30 hps, sanitize_rjust 30 has]
  · refine ⟨?_, ?_, ?_, ?_, ?_, ?_, ?_, ?_⟩ <;>
      simp [rjust_length ' ' hn, rjust_length ' ' hs,
        rjust_length ' ' hp, rjust_length ' ' ha]

theorem Transaction.counter_chars_len {t : Transaction} (hw : t.WF) :
    (intToChars t.counter).length ≤ 6 := by
  obtain ⟨h1, h2, _, _⟩ := hw
  exact intToChars_length_le (by omega) (by omega) (by norm_num)

theorem Transaction.amount_chars_len {t : Transaction} (hw : t.WF) :
    t.amountChars.length ≤ 12 := by
  obtain ⟨_, _, h1, h2⟩ := hw
  exact intToChars_length_le h1 h2 (by norm_num)

theorem parseTransactionLine_payload {t : Transaction} (hw : t.WF) :
    parseTransactionLine t.payload = some t := by
  have hc := Transaction.counter_chars_len hw
  have ha := Transaction.amount_chars_len hw
  obtain ⟨h1, h2, h3, h4⟩ := hw
  unfold parseTransactionLine
  rw [txSlice_counter hc, Transaction.slice_amount hc ha,
    Transaction.slice_currency hc ha]
  rw [parseNat?_rjust_intToChars 6 (by omega)]
  show (parseNat? (rjust 12 '0' t.amountChars)).bind _ = some t
  unfold Transaction.amountChars
  rw [parseNat?_rjust_intToChars 12 h3]
  show (Currency.parse? t.currency.chars).bind _ = some t
  rw [Currency.parse?_chars]
  show Transaction.make? (t.counter.toNat : ℤ) (mkRat (t.amountCents.toNat : ℤ) 100)
    t.currency = some t
  rw [Int.toNat_of_nonneg (by omega), Int.toNat_of_nonneg h3]
  unfold Transaction.make?
  rw [roundCents_mkRat]
  rw [if_pos ⟨h1, h2, h3⟩]

theorem parseFooterLine_core {f : Footer} (h1 : 0 ≤ f.total_counter)
    (h2 : f.total_counter < 10 ^ 6) (h3 : 1 ≤ f.total_counter)
    (h4 : 0 ≤ f.control_sumCents) (h5 : f.control_sumCents < 10 ^ 12) :
    parseFooterLine f.core = some f := by
  have hc : (intToChars f.total_counter).length ≤ 6 :=
    intToChars_length_le h1 h2 (by norm_num)
  have ha : (intToChars f.control_sumCents).length ≤ 12 :=
    intToChars_length_le h4 h5 (by norm_num)
  unfold parseFooterLine
  rw [footerSlice_counter hc, Footer.slice_sum hc ha]
  rw [parseNat?_rjust_intToChars 6 h1]
  show (parseNat? (rjust 12 '0' (intToChars f.control_sumCents))).bind _ = some f
  rw [parseNat?_rjust_intToChars 12 h4]
  show Footer.make? (f.total_counter.toNat : ℤ) (mkRat (f.control_sumCents.toNat : ℤ) 100)
    = some f
  rw [Int.toNat_of_nonneg h1, Int.toNat_of_nonneg h4]
  unfold Footer.make?
  rw [roundCents_mkRat]
  rw [if_pos ⟨h3, h4⟩]

theorem parseTransactions_map {ts : List Transaction} (hw : ∀ t ∈ ts, t.WF) :
    parseTransactions (ts.map Transaction.payload) = some ts := by
  induction ts with
  | nil => rfl
  | cons t ts ih =>
    simp only [List.map_cons]
    show (parseTransactionLine t.payload).bind _ = some (t :: ts)
    rw [parseTransactionLine_payload (hw t (List.mem_cons_self _ _))]
    show (parseTransactions (ts.map Transaction.payload)).bind _ = some (t :: ts)
    rw [ih (fun x hx => hw x (List.mem_cons_of_mem _ hx))]
    rfl


/-! ## Lemmas: delimiter-freeness of payloads -/

theorem nl_not_isDigit {c : Char} (h : c.isDigit = true) : c ≠ '\n' := by
  rintro rfl
  exact absurd h (by decide)

theorem nl_not_mem_natToChars (n : ℕ) : '\n' ∉ natToChars n := by
  intro hmem
  exact nl_not_isDigit (natToChars_all_digits n _ hmem) rfl

theorem nl_not_mem_rjust_digits {w : ℕ} {n : ℤ} (h : 0 ≤ n) :
    '\n' ∉ rjust w '0' (intToChars n) := by
  rw [intToChars_nonneg h]
  intro hmem
  rcases List.mem_append.mp hmem with hmem | hmem
  · have := List.eq_of_mem_replicate hmem
    exact absurd this (by decide)
  · exact nl_not_mem_natToChars _ hmem

theorem nl_not_mem_rjust_space {w : ℕ} {l : List Char} (h : '\n' ∉ l) :
    '\n' ∉ rjust w ' ' l := by
  intro hmem
  rcases List.mem_append.mp hmem with hmem | hmem
  · have := List.eq_of_mem_replicate hmem
    exact absurd this (by decide)
  · exact h hmem

theorem nl_not_mem_replicate_space {k : ℕ} : '\n' ∉ List.replicate k ' ' := by
  intro hmem
  have := List.eq_of_mem_replicate hmem
  exact absurd this (by decide)

theorem headerPayload_no_nl {h : Header} (hw : h.WF) : '\n' ∉ h.payload := by
  obtain ⟨⟨_, _, _, hn⟩, ⟨_, _, _, hs⟩, ⟨_, _, _, hp⟩, ⟨_, _, _, ha⟩⟩ := hw
  simp only [Header.payload, List.append_assoc, List.mem_append, List.mem_cons]
  push_neg
  refine ⟨by decide, ?_, ?_, ?_, ?_⟩ <;>
    first
      | exact nl_not_mem_rjust_space hn
      | exact nl_not_mem_rjust_space hs
      | exact nl_not_mem_rjust_space hp
      | exact nl_not_mem_rjust_space ha

theorem txPayload_no_nl {t : Transaction} (hw : t.WF) : '\n' ∉ t.payload := by
  obtain ⟨h1, _, h3, _⟩ := hw
  have hcur : '\n' ∉ t.currency.chars := by cases t.currency <;> decide
  simp only [Transaction.payload, Transaction.amountChars, List.append_assoc,
    List.mem_append, List.mem_cons]
  push_neg
  exact ⟨by decide, nl_not_mem_rjust_digits (by omega), nl_not_mem_rjust_digits h3,
    nl_not_mem_rjust_space hcur, nl_not_mem_replicate_space⟩

theorem Footer.core_no_nl {f : Footer} (h1 : 0 ≤ f.total_counter)
    (h2 : 0 ≤ f.control_sumCents) : '\n' ∉ f.core := by
  simp only [Footer.core, List.append_assoc, List.mem_append, List.mem_cons]
  push_neg
  exact ⟨by decide, nl_not_mem_rjust_digits h1, nl_not_mem_rjust_digits h2⟩


/-! ## Lemmas: splitting the serialized document back into lines -/

theorem rjust_ne_nil {w : ℕ} {l : List Char} (pad : Char) (h : l ≠ []) :
    rjust w pad l ≠ [] := by
  simp only [rjust, ne_eq, List.append_eq_nil]
  tauto

theorem natToChars_getLast?_digit (n : ℕ) :
    ∃ c, (natToChars n).getLast? = some c ∧ c.isDigit = true := by
  have hne := natToChars_ne_nil n
  exact ⟨(natToChars n).getLast hne, List.getLast?_eq_getLast_of_ne_nil hne,
    natToChars_all_digits n _ (List.getLast_mem hne)⟩

theorem splitNl_flatten_renders {ts : List Transaction} (hwT : ∀ t ∈ ts, t.WF)
    {core : List Char} (hcore : '\n' ∉ core) :
    splitNl ((ts.map Transaction.render).flatten ++ core) =
      ts.map Transaction.payload ++ [core] := by
  induction ts with
  | nil => simpa using splitNl_of_no_nl hcore
  | cons t ts ih =>
    have e : ((t :: ts).map Transaction.render).flatten ++ core =
        t.payload ++ '\n' :: ((ts.map Transaction.render).flatten ++ core) := by
      simp [Transaction.render, List.append_assoc]
    rw [e, splitNl_append_nl _ (txPayload_no_nl (hwT t (List.mem_cons_self _ _)))]
    rw [ih (fun x hx => hwT x (List.mem_cons_of_mem _ hx))]
    rfl

theorem pyStrip_writeDocument {d : Document} (hv : d.Valid) :
    pyStrip (writeDocument d) =
      d.header.payload ++ '\n' :: ((d.transactions.map Transaction.render).flatten
        ++ d.footer.core) := by
  obtain ⟨hwH, hne, hlen, hwT, hcont, htc, hcs, hsum⟩ := hv
  have hcs0 : 0 ≤ d.footer.control_sumCents := by
    rw [hcs]
    exact sumCents_nonneg (fun t ht => (hwT t ht).2.2.1)
  -- the stripped body: everything up to the last control-sum digit
  have hcore_ne : d.footer.core ≠ [] := by simp [Footer.core]
  have hdecomp : writeDocument d =
      (d.header.payload ++ '\n' :: ((d.transactions.map Transaction.render).flatten
        ++ d.footer.core)) ++ (List.replicate 100 ' ' ++ ['\n']) := by
    simp [writeDocument, Header.render, Footer.render, Footer.payload_eq_core,
      List.append_assoc]
  have hBne : (d.header.payload ++ '\n' :: ((d.transactions.map Transaction.render).flatten
      ++ d.footer.core)) ≠ [] := by simp
  -- the head of the body is the '0' of the header type code
  have hhead : isWS ((d.header.payload ++ '\n' :: ((d.transactions.map Transaction.render).flatten
      ++ d.footer.core)).head hBne) = false := by
    have e : d.header.payload ++ '\n' :: ((d.transactions.map Transaction.render).flatten
        ++ d.footer.core) = '0' :: ('1' :: (d.header.payload.drop 2 ++
          '\n' :: ((d.transactions.map Transaction.render).flatten ++ d.footer.core))) := by
      simp [Header.payload, List.append_assoc]
    simp only [e, List.head_cons]
    decide
  -- the last character of the body is the last digit of the control sum
  obtain ⟨clast, hclast, hcdig⟩ := natToChars_getLast?_digit d.footer.control_sumCents.toNat
  have hcore_last : d.footer.core.getLast? = some clast := by
    have e : d.footer.core = (['0', '3'] ++ rjust 6 '0' (intToChars d.footer.total_counter)
        ++ List.replicate (12 - (intToChars d.footer.control_sumCents).length) '0')
        ++ intToChars d.footer.control_sumCents := by
      simp [Footer.core, rjust, List.append_assoc]
    rw [e, List.getLast?_append_of_ne_nil]
    · rw [intToChars_nonneg hcs0]
      exact hclast
    · rw [intToChars_nonneg hcs0]
      exact natToChars_ne_nil _
  have hBlast? : (d.header.payload ++ '\n' :: ((d.transactions.map Transaction.render).flatten
      ++ d.footer.core)).getLast? = some clast := by
    have e : d.header.payload ++ '\n' :: ((d.transactions.map Transaction.render).flatten
        ++ d.footer.core) = (d.header.payload ++ '\n' ::
          (d.transactions.map Transaction.render).flatten) ++ d.footer.core := by
      simp [List.append_assoc]
    rw [e, List.getLast?_append_of_ne_nil _ hcore_ne]
    exact hcore_last
  have hlast : isWS ((d.header.payload ++ '\n' :: ((d.transactions.map Transaction.render).flatten
      ++ d.footer.core)).getLast hBne) = false := by
    have := List.getLast?_eq_getLast_of_ne_nil hBne
    rw [this] at hBlast?
    have heq : (d.header.payload ++ '\n' :: ((d.transactions.map Transaction.render).flatten
        ++ d.footer.core)).getLast hBne = clast := by
      injection hBlast?
    rw [heq]
    exact isWS_of_isDigit hcdig
  have htail : ∀ c ∈ List.replicate 100 ' ' ++ ['\n'], isWS c = true := by
    intro c hc
    rcases List.mem_append.mp hc with hc | hc
    · rw [List.eq_of_mem_replicate hc]; decide
    · simp only [List.mem_singleton] at hc
      rw [hc]; decide
  rw [hdecomp, pyStrip_sandwich hBne hhead hlast htail]

theorem pyStrip_writeDocument_ne_nil {d : Document} (hv : d.Valid) :
    pyStrip (writeDocument d) ≠ [] := by
  rw [pyStrip_writeDocument hv]
  simp

theorem stripSplit_writeDocument {d : Document} (hv : d.Valid) :
    splitNl (pyStrip (writeDocument d)) =
      d.header.payload :: (d.transactions.map Transaction.payload ++ [d.footer.core]) := by
  have hv' := hv
  obtain ⟨hwH, hne, hlen, hwT, hcont, htc, hcs, hsum⟩ := hv'
  have hcs0 : 0 ≤ d.footer.control_sumCents := by
    rw [hcs]
    exact sumCents_nonneg (fun t ht => (hwT t ht).2.2.1)
  rw [pyStrip_writeDocument hv]
  rw [splitNl_append_nl _ (headerPayload_no_nl hwH)]
  rw [splitNl_flatten_renders hwT (Footer.core_no_nl (by rw [htc]; positivity) hcs0)]


/-! ## Lemmas: validating and assembling the rendered lines -/

theorem firstLongIdx_eq_none {maxLen : ℕ} {lines : List (List Char)}
    (h : ∀ l ∈ lines, l.length ≤ maxLen) : firstLongIdx maxLen lines = none := by
  induction lines with
  | nil => rfl
  | cons l ls ih =>
    simp only [firstLongIdx]
    rw [if_neg (by simpa using h l (List.mem_cons_self _ _)),
      ih (fun x hx => h x (List.mem_cons_of_mem _ hx))]
    rfl

theorem headerPayload_take2 (h : Header) : h.payload.take 2 = ['0', '1'] := by
  have e : h.payload = '0' :: '1' :: (rjust 28 ' ' h.name ++
      (rjust 30 ' ' h.surname ++ (rjust 30 ' ' h.patrynomic ++ rjust 30 ' ' h.address))) := by
    simp [Header.payload, List.append_assoc]
  rw [e]
  rfl

theorem txPayload_take2 (t : Transaction) : t.payload.take 2 = ['0', '2'] := by
  have e : t.payload = '0' :: '2' :: (rjust 6 '0' (intToChars t.counter) ++
      (rjust 12 '0' t.amountChars ++ (rjust 3 ' ' t.currency.chars ++
        List.replicate 97 ' '))) := by
    simp [Transaction.payload, List.append_assoc]
  rw [e]
  rfl

theorem Footer.core_take2 (f : Footer) : f.core.take 2 = ['0', '3'] := by
  have e : f.core = '0' :: '3' :: (rjust 6 '0' (intToChars f.total_counter) ++
      rjust 12 '0' (intToChars f.control_sumCents)) := by
    simp [Footer.core, List.append_assoc]
  rw [e]
  rfl

theorem Footer.core_length {f : Footer} (h1 : 0 ≤ f.total_counter)
    (h2 : f.total_counter < 10 ^ 6) (h3 : 0 ≤ f.control_sumCents)
    (h4 : f.control_sumCents < 10 ^ 12) : f.core.length = 20 := by
  have hcl : (intToChars f.total_counter).length ≤ 6 :=
    intToChars_length_le h1 h2 (by norm_num)
  have hal : (intToChars f.control_sumCents).length ≤ 12 :=
    intToChars_length_le h3 h4 (by norm_num)
  simp only [Footer.core, List.length_append]
  rw [rjust_length '0' hcl, rjust_length '0' hal]
  rfl

theorem getLast_cons_concat {α : Type} (a x : α) (l : List α) :
    (a :: (l ++ [x])).getLast (List.cons_ne_nil _ _) = x := by
  rw [List.getLast_cons (by simp : l ++ [x] ≠ [])]
  exact List.getLast_append_singleton l


theorem contiguous_getElem {ts : List Transaction} (h : Contiguous ts)
    {i : ℕ} (hi : i < ts.length) : ts[i].counter = (i : ℤ) + 1 := by
  unfold Contiguous at h
  have hml : i < (ts.map Transaction.counter).length := by simpa using hi
  have e := List.getElem_of_eq h hml
  rw [List.getElem_map] at e
  rw [e, List.getElem_map, List.getElem_range]

theorem contiguous_getLast {ts : List Transaction} (h : Contiguous ts)
    (hne : ts ≠ []) : ∃ tl, ts.getLast? = some tl ∧ tl.counter = (ts.length : ℤ) := by
  have hlen : 0 < ts.length := List.length_pos.mpr hne
  refine ⟨ts.getLast hne, List.getLast?_eq_getLast_of_ne_nil hne, ?_⟩
  rw [List.getLast_eq_getElem]
  rw [contiguous_getElem h (by omega)]
  omega

theorem validate_lines_ok {d : Document} (hv : d.Valid) {maxLen maxTx : ℕ}
    (hml : 120 ≤ maxLen) (hmt : d.transactions.length ≤ maxTx) :
    validate maxLen maxTx
      (d.header.payload :: (d.transactions.map Transaction.payload ++ [d.footer.core]))
      = .ok () := by
  obtain ⟨hwH, hne, hlen, hwT, hcont, htc, hcs, hsum⟩ := hv
  have hcs0 : 0 ≤ d.footer.control_sumCents := by
    rw [hcs]
    exact sumCents_nonneg (fun t ht => (hwT t ht).2.2.1)
  have htc0 : (0 : ℤ) ≤ d.footer.total_counter := by rw [htc]; positivity
  have htc6 : d.footer.total_counter < 10 ^ 6 := by
    rw [htc]
    exact_mod_cast (by omega : d.transactions.length < 10 ^ 6)
  have hcore20 : d.footer.core.length = 20 :=
    Footer.core_length htc0 htc6 hcs0 (by rw [hcs]; exact hsum)
  unfold validate
  rw [firstLongIdx_eq_none]
  · simp only
    rw [if_neg (by rw [headerPayload_take2]; simp)]
    rw [getLast_cons_concat]
    rw [if_neg (by rw [Footer.core_take2]; simp)]
    rw [if_neg (by simp; omega)]
    rw [if_neg]
    simp only [List.dropLast_concat, List.any_eq_true, not_not]
    obtain ⟨t0, ts', hts⟩ := List.exists_cons_of_ne_nil hne
    exact ⟨t0.payload, by rw [hts]; simp, by simp [txPayload_take2]⟩
  · intro l hl
    rcases List.mem_cons.mp hl with rfl | hl
    · rw [headerPayload_length hwH]; exact hml
    · rcases List.mem_append.mp hl with hl | hl
      · obtain ⟨t, ht, rfl⟩ := List.mem_map.mp hl
        rw [txPayload_length (hwT t ht)]; exact hml
      · simp only [List.mem_singleton] at hl
        subst hl
        omega

theorem getDocument_lines {d : Document} (hv : d.Valid) :
    getDocument
      (d.header.payload :: (d.transactions.map Transaction.payload ++ [d.footer.core]))
      = .ok d := by
  obtain ⟨hwH, hne, hlen, hwT, hcont, htc, hcs, hsum⟩ := hv
  have hcs0 : 0 ≤ d.footer.control_sumCents := by
    rw [hcs]
    exact sumCents_nonneg (fun t ht => (hwT t ht).2.2.1)
  have htc0 : (0 : ℤ) ≤ d.footer.total_counter := by rw [htc]; positivity
  have htc6 : d.footer.total_counter < 10 ^ 6 := by
    rw [htc]
    exact_mod_cast (by omega : d.transactions.length < 10 ^ 6)
  have htc1 : (1 : ℤ) ≤ d.footer.total_counter := by
    rw [htc]
    exact_mod_cast List.length_pos.mpr hne
  simp only [getDocument]
  rw [parseHeaderLine_payload hwH]
  rw [List.dropLast_concat, parseTransactions_map hwT]
  rw [getLast_cons_concat]
  rw [parseFooterLine_core htc0 htc6 htc1 hcs0 (by rw [hcs]; exact hsum)]
  obtain ⟨tl, htl, htlc⟩ := contiguous_getLast hcont hne
  dsimp only
  rw [htl]
  dsimp only
  rw [if_neg (by rw [htlc, htc]; simp)]

/-- The full read path applied to the exact serialization of a valid
document succeeds and reproduces the document. -/
theorem readDoc_writeDocument {d : Document} (hv : d.Valid) {maxLen maxTx : ℕ}
    (hml : 120 ≤ maxLen) (hmt : d.transactions.length ≤ maxTx) :
    readDoc maxLen maxTx (writeDocument d) = .ok d := by
  simp only [readDoc]
  rw [if_neg (by simpa [List.isEmpty_iff] using pyStrip_writeDocument_ne_nil hv)]
  rw [stripSplit_writeDocument hv]
  rw [validate_lines_ok hv hml hmt]
  dsimp only
  rw [getDocument_lines hv]


/-! ## Lemmas: footer creation and mutation inversion -/

theorem createFooter_eq_some {ts : List Transaction} {f : Footer}
    (h : createFooter ts = some f) :
    f.total_counter = (ts.length : ℤ) ∧ f.control_sumCents = sumCents ts
      ∧ 1 ≤ ts.length := by
  unfold createFooter Footer.make? at h
  rw [roundCents_mkRat] at h
  dsimp only at h
  split at h
  · rename_i hcond
    injection h with h
    subst h
    refine ⟨rfl, rfl, ?_⟩
    exact_mod_cast hcond.1
  · exact absurd h (by simp)

theorem createFooter_of_wf {ts : List Transaction} (h1 : 1 ≤ ts.length)
    (h2 : 0 ≤ sumCents ts) :
    createFooter ts = some ⟨(ts.length : ℤ), sumCents ts⟩ := by
  unfold createFooter Footer.make?
  rw [roundCents_mkRat]
  rw [if_pos ⟨by exact_mod_cast h1, h2⟩]

theorem updateTransactionDoc_ok {maxTx : ℕ} {doc : Document} {id : ℤ} {amount : ℚ}
    {cur : Currency} {d' : Document}
    (h : updateTransactionDoc maxTx doc id amount cur = .ok d') :
    ∃ new, Transaction.make? id amount cur = some new
      ∧ 1 ≤ id ∧ id ≤ (maxTx : ℤ) ∧ id ≤ doc.footer.total_counter
      ∧ (id - 1).toNat < doc.transactions.length
      ∧ d'.transactions = doc.transactions.set (id - 1).toNat new
      ∧ d'.header = doc.header
      ∧ createFooter d'.transactions = some d'.footer := by
  unfold updateTransactionDoc at h
  dsimp only at h
  split at h
  · exact absurd h (by simp)
  · rename_i hrange
    push_neg at hrange
    split at h
    · exact absurd h (by simp)
    · rename_i hpresent
      push_neg at hpresent
      split at h
      · exact absurd h (by simp)
      · rename_i new hnew
        split at h
        · exact absurd h (by simp)
        · rename_i hidx
          push_neg at hidx
          split at h
          · exact absurd h (by simp)
          · rename_i f hf
            injection h with h
            subst h
            exact ⟨new, hnew, by omega, by omega, hpresent, hidx, rfl, rfl, hf⟩

theorem addTransactionDoc_ok {maxTx : ℕ} {doc : Document} {amount : ℚ}
    {cur : Currency} {d' : Document}
    (h : addTransactionDoc maxTx doc amount cur = .ok d') :
    ∃ new, Transaction.make? (doc.footer.total_counter + 1) amount cur = some new
      ∧ doc.footer.total_counter ≠ (maxTx : ℤ)
      ∧ d'.transactions = doc.transactions ++ [new]
      ∧ d'.header = doc.header
      ∧ createFooter d'.transactions = some d'.footer := by
  unfold addTransactionDoc at h
  dsimp only at h
  split at h
  · exact absurd h (by simp)
  · rename_i hcap
    split at h
    · exact absurd h (by simp)
    · rename_i new hnew
      split at h
      · exact absurd h (by simp)
      · rename_i f hf
        injection h with h
        subst h
        exact ⟨new, hnew, hcap, rfl, rfl, hf⟩

theorem deleteTransactionDoc_ok {doc : Document} {id : ℤ} {d' : Document}
    (h : deleteTransactionDoc doc id = .ok d') :
    1 ≤ id ∧ id ≤ doc.footer.total_counter
      ∧ (id - 1).toNat < doc.transactions.length
      ∧ d'.transactions =
          decrementFrom (id - 1).toNat (doc.transactions.eraseIdx (id - 1).toNat)
      ∧ d'.header = doc.header
      ∧ createFooter d'.transactions = some d'.footer := by
  unfold deleteTransactionDoc at h
  dsimp only at h
  split at h
  · exact absurd h (by simp)
  · rename_i hrange
    push_neg at hrange
    split at h
    · exact absurd h (by simp)
    · rename_i hidx
      push_neg at hidx
      split at h
      · exact absurd h (by simp)
      · rename_i f hf
        injection h with h
        subst h
        exact ⟨by omega, by omega, hidx, rfl, rfl, hf⟩


/-! ## Lemmas: the delete-shift transformation -/

theorem sumCents_append_single (A : List Transaction) (t : Transaction) :
    sumCents (A ++ [t]) = sumCents A + t.amountCents := by
  simp [sumCents]

theorem sumCents_mapIdx_preserving (f : ℕ → Transaction → Transaction)
    (hf : ∀ i t, (f i t).amountCents = t.amountCents) (l : List Transaction) :
    sumCents (l.mapIdx f) = sumCents l := by
  induction l generalizing f with
  | nil => rfl
  | cons t l ih =>
    rw [List.mapIdx_cons]
    simp only [sumCents, List.map_cons, List.sum_cons] at *
    rw [hf 0 t, ih (fun i => f (i + 1)) (fun i t => hf (i + 1) t)]

theorem sumCents_decrementFrom (i : ℕ) (l : List Transaction) :
    sumCents (decrementFrom i l) = sumCents l := by
  unfold decrementFrom
  exact sumCents_mapIdx_preserving _ (fun j t => by split <;> rfl) l

theorem length_decrementFrom (i : ℕ) (l : List Transaction) :
    (decrementFrom i l).length = l.length := by
  simp [decrementFrom]

theorem mapIdx_eq_self_of_lt {f : ℕ → Transaction → Transaction}
    {A : List Transaction} (hf : ∀ i t, i < A.length → f i t = t) :
    A.mapIdx f = A := by
  refine List.ext_getElem (by simp) ?_
  intro i h1 h2
  rw [List.getElem_mapIdx]
  exact hf i _ h2

theorem decrementFrom_append {i : ℕ} (A B : List Transaction) (hA : A.length = i) :
    decrementFrom i (A ++ B) =
      A ++ B.map (fun t => { t with counter := t.counter - 1 }) := by
  subst hA
  unfold decrementFrom
  rw [List.mapIdx_append]
  congr 1
  · exact mapIdx_eq_self_of_lt (fun i t hi => if_neg (by omega))
  · refine List.ext_getElem (by simp) ?_
    intro i h1 h2
    rw [List.getElem_mapIdx, if_pos (by omega), List.getElem_map]

theorem deleteTransactionDoc_shift {doc : Document} {k : ℤ}
    (htotal : doc.footer.total_counter = (doc.transactions.length : ℤ))
    (hk1 : 1 ≤ k) (hkN : k ≤ (doc.transactions.length : ℤ))
    (hamts : ∀ t ∈ doc.transactions, 0 ≤ t.amountCents)
    (hN2 : 2 ≤ doc.transactions.length) :
    ∃ d', deleteTransactionDoc doc k = .ok d'
      ∧ d'.header = doc.header
      ∧ d'.transactions = doc.transactions.take (k - 1).toNat
          ++ (doc.transactions.drop ((k - 1).toNat + 1)).map
            (fun t => { t with counter := t.counter - 1 }) := by
  have hkn : (k - 1).toNat < doc.transactions.length := by omega
  have htake : (doc.transactions.take (k - 1).toNat).length = (k - 1).toNat := by
    rw [List.length_take]
    omega
  unfold deleteTransactionDoc
  rw [if_neg (by rw [htotal]; omega)]
  dsimp only
  rw [if_neg (by omega : ¬ doc.transactions.length ≤ (k - 1).toNat)]
  rw [List.eraseIdx_eq_take_drop_succ]
  rw [decrementFrom_append _ _ htake]
  have hsumpos : 0 ≤ sumCents (doc.transactions.take (k - 1).toNat
      ++ (doc.transactions.drop ((k - 1).toNat + 1)).map
        (fun t => { t with counter := t.counter - 1 })) := by
    refine sumCents_nonneg ?_
    intro t ht
    rcases List.mem_append.mp ht with ht | ht
    · exact hamts t (List.take_subset _ _ ht)
    · obtain ⟨t0, ht0, rfl⟩ := List.mem_map.mp ht
      exact hamts t0 (List.drop_subset _ _ ht0)
  have hlenpos : 1 ≤ (doc.transactions.take (k - 1).toNat
      ++ (doc.transactions.drop ((k - 1).toNat + 1)).map
        (fun t : Transaction => { t with counter := t.counter - 1 })).length := by
    simp only [List.length_append, List.length_map, List.length_take, List.length_drop]
    omega
  rw [createFooter_of_wf hlenpos hsumpos]
  dsimp only
  exact ⟨_, rfl, rfl, rfl⟩


/-! ## Lemmas: contiguity preservation -/

theorem contiguous_of_pointwise {ts : List Transaction}
    (h : ∀ i (hi : i < ts.length), ts[i].counter = (i : ℤ) + 1) : Contiguous ts := by
  unfold Contiguous
  refine List.ext_getElem (by simp) ?_
  intro i h1 h2
  rw [List.getElem_map, List.getElem_map, List.getElem_range]
  exact h i (by simpa using h1)

theorem contiguous_set {ts : List Transaction} {new : Transaction} {id : ℤ}
    (hcont : Contiguous ts) (_hidx : (id - 1).toNat < ts.length)
    (hc : new.counter = id) (hid : 1 ≤ id) :
    Contiguous (ts.set (id - 1).toNat new) := by
  refine contiguous_of_pointwise ?_
  intro i hi
  rw [List.length_set] at hi
  rw [List.getElem_set]
  split
  · rename_i hij
    rw [hc]
    omega
  · exact contiguous_getElem hcont hi

theorem contiguous_append_single {ts : List Transaction} {new : Transaction}
    (hcont : Contiguous ts) (hc : new.counter = (ts.length : ℤ) + 1) :
    Contiguous (ts ++ [new]) := by
  refine contiguous_of_pointwise ?_
  intro i hi
  simp only [List.length_append, List.length_cons, List.length_nil] at hi
  by_cases hlt : i < ts.length
  · rw [List.getElem_append_left hlt]
    exact contiguous_getElem hcont hlt
  · have hieq : i = ts.length := by omega
    subst hieq
    rw [List.getElem_append_right (le_refl _)]
    simpa using hc

theorem contiguous_delete_shift {ts : List Transaction} {k : ℤ}
    (hcont : Contiguous ts) (hk1 : 1 ≤ k) (hkN : k ≤ (ts.length : ℤ)) :
    Contiguous (ts.take (k - 1).toNat
      ++ (ts.drop ((k - 1).toNat + 1)).map
        (fun t : Transaction => { t with counter := t.counter - 1 })) := by
  have hkn : (k - 1).toNat < ts.length := by omega
  refine contiguous_of_pointwise ?_
  intro i hi
  simp only [List.length_append, List.length_map, List.length_take, List.length_drop] at hi
  by_cases hlt : i < (k - 1).toNat
  · rw [List.getElem_append_left (by simp [List.length_take]; omega)]
    rw [List.getElem_take]
    exact contiguous_getElem hcont (by omega)
  · have hlen : (ts.take (k - 1).toNat).length = (k - 1).toNat := by
      rw [List.length_take]
      omega
    rw [List.getElem_append_right (by omega : (ts.take (k - 1).toNat).length ≤ i)]
    rw [List.getElem_map, List.getElem_drop]
    have harith : (k - 1).toNat + 1 + (i - (ts.take (k - 1).toNat).length) = i + 1 := by
      omega
    have := contiguous_getElem hcont
      (show (k - 1).toNat + 1 + (i - (ts.take (k - 1).toNat).length) < ts.length by omega)
    simp only [harith] at this ⊢
    rw [this]
    omega


/-! ## Lemmas: the capacity boundary -/

theorem addTransactionDoc_capacity_iff (maxTx : ℕ) (doc : Document) (amount : ℚ)
    (cur : Currency) :
    addTransactionDoc maxTx doc amount cur = .error .capacityError
      ↔ doc.footer.total_counter = (maxTx : ℤ) := by
  unfold addTransactionDoc
  split
  · rename_i h
    exact ⟨fun _ => h, fun _ => rfl⟩
  · rename_i h
    constructor
    · intro hcon
      split at hcon
      · exact absurd hcon (by simp)
      · dsimp only at hcon
        split at hcon <;> exact absurd hcon (by simp)
    · intro hh
      exact absurd hh h

theorem updateTransactionDoc_ne_capacity (maxTx : ℕ) (doc : Document) (id : ℤ)
    (amount : ℚ) (cur : Currency) :
    updateTransactionDoc maxTx doc id amount cur ≠ .error .capacityError := by
  intro hcon
  unfold updateTransactionDoc at hcon
  dsimp only at hcon
  split at hcon
  · exact absurd hcon (by simp)
  · split at hcon
    · exact absurd hcon (by simp)
    · split at hcon
      · exact absurd hcon (by simp)
      · split at hcon
        · exact absurd hcon (by simp)
        · split at hcon <;> exact absurd hcon (by simp)

theorem deleteTransactionDoc_ne_capacity (doc : Document) (id : ℤ) :
    deleteTransactionDoc doc id ≠ .error .capacityError := by
  intro hcon
  unfold deleteTransactionDoc at hcon
  dsimp only at hcon
  split at hcon
  · exact absurd hcon (by simp)
  · split at hcon
    · exact absurd hcon (by simp)
    · split at hcon <;> exact absurd hcon (by simp)

theorem addTransactionDoc_success {maxTx : ℕ} {doc : Document} {amount : ℚ}
    {cur : Currency} (hv : doc.Valid) (hmt : doc.transactions.length ≤ maxTx)
    (hmax : maxTx ≤ 20000) (hcap : doc.footer.total_counter ≠ (maxTx : ℤ))
    (hamt : 0 ≤ roundCents amount) :
    addTransactionDoc maxTx doc amount cur =
      .ok ⟨doc.header,
        doc.transactions ++ [⟨doc.footer.total_counter + 1, roundCents amount, cur⟩],
        ⟨((doc.transactions.length + 1 : ℕ) : ℤ),
          sumCents doc.transactions + roundCents amount⟩⟩ := by
  obtain ⟨_, hne, hlen, hwT, hcont, htc, hcs, hsum⟩ := hv
  have hlt : doc.transactions.length < maxTx := by
    rcases Nat.lt_or_ge doc.transactions.length maxTx with hh | hh
    · exact hh
    · have : doc.transactions.length = maxTx := by omega
      rw [htc, this] at hcap
      exact absurd rfl hcap
  unfold addTransactionDoc
  rw [if_neg hcap]
  unfold Transaction.make?
  dsimp only
  rw [if_pos ⟨by rw [htc]; omega, by rw [htc]; exact_mod_cast (by omega), hamt⟩]
  dsimp only
  have hfoot := @createFooter_of_wf
    (doc.transactions ++ [⟨doc.footer.total_counter + 1, roundCents amount, cur⟩])
    (by simp) (by
      rw [sumCents_append_single]
      dsimp only
      have := sumCents_nonneg (fun t ht => (hwT t ht).2.2.1)
      omega)
  rw [hfoot]
  dsimp only
  rw [sumCents_append_single]
  simp


/-! ## Lemmas: fail-fast line-length validation -/

theorem firstLongIdx_spec {maxLen : ℕ} :
    ∀ {lines : List (List Char)} {i : ℕ} {li : List Char},
      lines[i]? = some li → maxLen < li.length →
      ∃ j lj, j ≤ i ∧ lines[j]? = some lj ∧ maxLen < lj.length
        ∧ (∀ k lk, k < j → lines[k]? = some lk → lk.length ≤ maxLen)
        ∧ firstLongIdx maxLen lines = some j
  | [], i, li, hi, _ => by simp at hi
  | l :: ls, i, li, hi, hlong => by
    by_cases hl : maxLen < l.length
    · exact ⟨0, l, Nat.zero_le _, List.getElem?_cons_zero, hl,
        fun k lk hk _ => absurd hk (by omega), by simp [firstLongIdx, hl]⟩
    · match i, hi with
      | 0, hi =>
        rw [List.getElem?_cons_zero] at hi
        injection hi with hi
        subst hi
        exact absurd hlong hl
      | i' + 1, hi =>
        rw [List.getElem?_cons_succ] at hi
        obtain ⟨j, lj, hj1, hj2, hj3, hj4, hj5⟩ := firstLongIdx_spec hi hlong
        refine ⟨j + 1, lj, by omega, by simpa using hj2, hj3, ?_, ?_⟩
        · intro k lk hk hks
          match k, hks with
          | 0, hks =>
            rw [List.getElem?_cons_zero] at hks
            injection hks with hks
            subst hks
            omega
          | k' + 1, hks =>
            rw [List.getElem?_cons_succ] at hks
            exact hj4 k' lk (by omega) hks
        · simp [firstLongIdx, hl, hj5]

theorem validate_of_firstLongIdx {maxLen maxTx : ℕ} {lines : List (List Char)} {j : ℕ}
    (h : firstLongIdx maxLen lines = some j) :
    validate maxLen maxTx lines = .error (.lineTooLong j) := by
  unfold validate
  rw [h]

/-! ## Lemmas: deleting from a one-transaction document -/

theorem deleteTransactionDoc_singleton {doc : Document}
    (hlen : doc.transactions.length = 1)
    (htotal : doc.footer.total_counter = 1) :
    deleteTransactionDoc doc 1 = .error .modelError := by
  obtain ⟨t, hts⟩ := List.length_eq_one.mp hlen
  unfold deleteTransactionDoc
  rw [if_neg (by rw [htotal]; omega)]
  dsimp only
  rw [if_neg (by omega)]
  rw [hts]
  rfl

/-! ## Lemmas: the half-even rounding characterization -/

theorem roundHalfEvenFrac_char {n d : ℤ} (hd : 0 < d) :
    -d ≤ 2 * (n - roundHalfEvenFrac n d * d) ∧ 2 * (n - roundHalfEvenFrac n d * d) ≤ d
      ∧ ((2 * (n - roundHalfEvenFrac n d * d) = d
            ∨ 2 * (n - roundHalfEvenFrac n d * d) = -d)
          → roundHalfEvenFrac n d % 2 = 0) := by
  have h0 : 0 ≤ n % d := Int.emod_nonneg n (ne_of_gt hd)
  have h1 : n % d < d := Int.emod_lt_of_pos n hd
  have key1 : n - n / d * d = n % d := by rw [Int.emod_def]; ring
  have key2 : n - (n / d + 1) * d = n % d - d := by rw [← key1]; ring
  unfold roundHalfEvenFrac
  dsimp only
  split
  · rename_i hlt
    rw [key1] at hlt ⊢
    exact ⟨by omega, by omega, by omega⟩
  · rename_i hge
    split
    · rename_i hgt
      rw [key1] at hgt
      rw [key2]
      exact ⟨by omega, by omega, by omega⟩
    · rename_i hle
      rw [key1] at hge hle
      have htie : 2 * (n % d) = d := by omega
      split
      · rename_i hpar
        rw [key1]
        exact ⟨by omega, by omega, fun _ => hpar⟩
      · rename_i hpar
        rw [key2]
        refine ⟨by omega, by omega, fun _ => ?_⟩
        omega


theorem roundCents_char (q : ℚ) :
    |(roundCents q : ℚ) - 100 * q| ≤ 1 / 2
      ∧ (|(roundCents q : ℚ) - 100 * q| = 1 / 2 → roundCents q % 2 = 0) := by
  have hd0 : (0 : ℤ) < (q.den : ℤ) := by exact_mod_cast q.den_pos
  obtain ⟨hle1, hle2, hpar⟩ := @roundHalfEvenFrac_char (100 * q.num) ((q.den : ℤ)) hd0
  set r := roundHalfEvenFrac (100 * q.num) ((q.den : ℤ)) with hrdef
  have hr : roundCents q = r := rfl
  have hq100 : 100 * q = ((100 * q.num : ℤ) : ℚ) / ((q.den : ℤ) : ℚ) := by
    conv_lhs => rw [← Rat.num_div_den q]
    push_cast
    ring
  have hdQ : (0 : ℚ) < ((q.den : ℤ) : ℚ) := by exact_mod_cast hd0
  have key : (r : ℚ) - 100 * q
      = -(((2 * (100 * q.num - r * (q.den : ℤ)) : ℤ) : ℚ)
          / (2 * ((q.den : ℤ) : ℚ))) := by
    rw [hq100]
    push_cast
    field_simp
    ring
  rw [hr, key, abs_neg, abs_div]
  rw [abs_of_pos (by linarith : (0 : ℚ) < 2 * ((q.den : ℤ) : ℚ))]
  have habs_int : |(2 * (100 * q.num - r * (q.den : ℤ)) : ℤ)| ≤ (q.den : ℤ) :=
    abs_le.mpr ⟨hle1, hle2⟩
  constructor
  · rw [div_le_iff₀ (by linarith)]
    rw [← Int.cast_abs]
    have h2 : (1 : ℚ) / 2 * (2 * ((q.den : ℤ) : ℚ)) = ((q.den : ℤ) : ℚ) := by ring
    rw [h2]
    exact_mod_cast habs_int
  · intro habs
    rw [div_eq_iff (by linarith)] at habs
    rw [← Int.cast_abs] at habs
    have h2 : (1 : ℚ) / 2 * (2 * ((q.den : ℤ) : ℚ)) = ((q.den : ℤ) : ℚ) := by ring
    rw [h2] at habs
    have habs2 : |(2 * (100 * q.num - r * (q.den : ℤ)) : ℤ)| = (q.den : ℤ) := by
      exact_mod_cast habs
    rcases abs_eq (le_of_lt hd0) |>.mp habs2 with he | he
    · exact hpar (Or.inl he)
    · exact hpar (Or.inr he)


/-! ## Validity of the sample documents -/

theorem exDoc1_valid : Document.Valid exDoc1 := by
  unfold Document.Valid Header.WF HeaderFieldWF SanitizedField Transaction.WF
    Contiguous sumCents
  decide

theorem exDoc2_valid : Document.Valid exDoc2 := by
  unfold Document.Valid Header.WF HeaderFieldWF SanitizedField Transaction.WF
    Contiguous sumCents
  decide

/-! ## The claims -/

/-- C1: for every valid Document `D` (header fields already sanitized,
counters contiguous `1..N`, footer derived), parsing the serialization of
`D` — slicing each rendered 120-character payload at the declared offsets
and rebuilding Header, Transactions and Footer — yields a Document equal
to `D`. -/
theorem claim1_parse_serialize_roundtrip (d : Document) (hv : d.Valid) :
    readDoc 121 20000 (writeDocument d) = .ok d :=
  readDoc_writeDocument hv (by norm_num) hv.2.2.1

theorem claim1_witness :
    Document.Valid exDoc1 ∧ readDoc 121 20000 (writeDocument exDoc1) = .ok exDoc1 :=
  ⟨exDoc1_valid, claim1_parse_serialize_roundtrip exDoc1 exDoc1_valid⟩

/-- C2 (counterexample): the Parser does not enforce the conservation
invariant. A serialized document whose footer carries `control_sum` 9.99
over a single 1.00 transaction parses successfully — the parser checks
only that the last counter matches `total_counter` — producing a Document
whose `control_sum` differs from the sum of its transaction amounts. -/
theorem claim2_counterexample :
    readDoc 121 20000 (writeDocument ⟨exHeader, [⟨1, 100, .USD⟩], ⟨1, 999⟩⟩)
        = .ok ⟨exHeader, [⟨1, 100, .USD⟩], ⟨1, 999⟩⟩
      ∧ (⟨exHeader, [⟨1, 100, .USD⟩], ⟨1, 999⟩⟩ : Document).footer.control_sumCents
          ≠ sumCents (⟨exHeader, [⟨1, 100, .USD⟩], ⟨1, 999⟩⟩ : Document).transactions := by
  constructor
  · decide
  · decide

/-- C2 (amended): every Document produced by a mutation operation
(update/add/delete) or by `create` has a recomputed footer satisfying
`total_counter = length` and `control_sum = Σ amounts`; a Document
produced by the Parser is only guaranteed to satisfy the weaker
reconciliation check `last counter = total_counter`. -/
theorem claim2_theorem :
    (∀ (maxTx : ℕ) (doc : Document) (id : ℤ) (amount : ℚ) (cur : Currency)
        (d' : Document), updateTransactionDoc maxTx doc id amount cur = .ok d' →
        d'.footer.total_counter = (d'.transactions.length : ℤ)
          ∧ d'.footer.control_sumCents = sumCents d'.transactions)
    ∧ (∀ (maxTx : ℕ) (doc : Document) (amount : ℚ) (cur : Currency) (d' : Document),
        addTransactionDoc maxTx doc amount cur = .ok d' →
        d'.footer.total_counter = (d'.transactions.length : ℤ)
          ∧ d'.footer.control_sumCents = sumCents d'.transactions)
    ∧ (∀ (doc : Document) (id : ℤ) (d' : Document),
        deleteTransactionDoc doc id = .ok d' →
        d'.footer.total_counter = (d'.transactions.length : ℤ)
          ∧ d'.footer.control_sumCents = sumCents d'.transactions)
    ∧ (∀ (header : Header) (ts : List Transaction) (text : List Char),
        createOp header ts = .ok text →
        ∃ f, createFooter ts = some f ∧ text = writeDocument ⟨header, ts, f⟩
          ∧ f.total_counter = (ts.length : ℤ) ∧ f.control_sumCents = sumCents ts)
    ∧ (∀ (lines : List (List Char)) (d : Document), getDocument lines = .ok d →
        ∃ tl, d.transactions.getLast? = some tl
          ∧ tl.counter = d.footer.total_counter) := by
  refine ⟨?_, ?_, ?_, ?_, ?_⟩
  · intro maxTx doc id amount cur d' h
    obtain ⟨new, _, _, _, _, _, _, _, hf⟩ := updateTransactionDoc_ok h
    obtain ⟨h1, h2, _⟩ := createFooter_eq_some hf
    exact ⟨h1, h2⟩
  · intro maxTx doc amount cur d' h
    obtain ⟨new, _, _, _, _, hf⟩ := addTransactionDoc_ok h
    obtain ⟨h1, h2, _⟩ := createFooter_eq_some hf
    exact ⟨h1, h2⟩
  · intro doc id d' h
    obtain ⟨_, _, _, _, _, hf⟩ := deleteTransactionDoc_ok h
    obtain ⟨h1, h2, _⟩ := createFooter_eq_some hf
    exact ⟨h1, h2⟩
  · intro header ts text h
    unfold createOp at h
    split at h
    · exact absurd h (by simp)
    · rename_i f hf
      injection h with h
      obtain ⟨h1, h2, _⟩ := createFooter_eq_some hf
      exact ⟨f, hf, h.symm, h1, h2⟩
  · intro lines d h
    unfold getDocument at h
    split at h
    · exact absurd h (by simp)
    · split at h
      · exact absurd h (by simp)
      · split at h
        · exact absurd h (by simp)
        · split at h
          · exact absurd h (by simp)
          · split at h
            · exact absurd h (by simp)
            · rename_i lastT hlast
              split at h
              · exact absurd h (by simp)
              · rename_i hcnt
                injection h with h
                subst h
                exact ⟨lastT, hlast, not_not.mp hcnt⟩

theorem claim2_witness :
    updateTransactionDoc 20000 exDoc1 1 5 Currency.USD
        = .ok ⟨exHeader, [⟨1, 500, .USD⟩], ⟨1, 500⟩⟩
      ∧ ((⟨exHeader, [⟨1, 500, .USD⟩], ⟨1, 500⟩⟩ : Document).footer.total_counter
            = ((⟨exHeader, [⟨1, 500, .USD⟩], ⟨1, 500⟩⟩ : Document).transactions.length : ℤ)
          ∧ (⟨exHeader, [⟨1, 500, .USD⟩], ⟨1, 500⟩⟩ : Document).footer.control_sumCents
            = sumCents (⟨exHeader, [⟨1, 500, .USD⟩], ⟨1, 500⟩⟩ : Document).transactions) :=
  ⟨by decide, claim2_theorem.1 20000 exDoc1 1 5 Currency.USD _ (by decide)⟩

/-- C10: `Header` construction accepts a whitespace-only string for a
field — the minimum-length check runs on the raw value before the
sanitizer strips it — so a Header is successfully built whose sanitized
`name` is the empty string. -/
theorem claim10_theorem :
    Header.make? [' '] ['D', 'o', 'e'] ['S', 'm', 'i', 't', 'h'] ['M', 'a', 'i', 'n']
        = some ⟨[], ['D', 'o', 'e'], ['S', 'm', 'i', 't', 'h'], ['M', 'a', 'i', 'n']⟩
      ∧ 1 ≤ ([' '] : List Char).length ∧ sanitize [' '] = [] := by
  refine ⟨by decide, by decide, by decide⟩


theorem Transaction.make?_eq_some {counter : ℤ} {amount : ℚ} {cur : Currency}
    {t : Transaction} (h : Transaction.make? counter amount cur = some t) :
    t.counter = counter ∧ t.amountCents = roundCents amount ∧ t.currency = cur
      ∧ 1 ≤ counter ∧ counter ≤ 20000 ∧ 0 ≤ roundCents amount := by
  unfold Transaction.make? at h
  dsimp only at h
  split at h
  · rename_i hcond
    injection h with h
    subst h
    exact ⟨rfl, rfl, rfl, hcond.1, hcond.2.1, hcond.2.2⟩
  · exact absurd h (by simp)

/-- C3: after every successful mutation (update, add, delete) on a valid
Document, the transaction counters of the result are exactly `1..N` in
order, where `N` is the length of the resulting sequence. -/
theorem claim3_contiguity :
    (∀ (maxTx : ℕ) (doc : Document) (id : ℤ) (amount : ℚ) (cur : Currency)
        (d' : Document), doc.Valid →
        updateTransactionDoc maxTx doc id amount cur = .ok d' →
        Contiguous d'.transactions)
    ∧ (∀ (maxTx : ℕ) (doc : Document) (amount : ℚ) (cur : Currency) (d' : Document),
        doc.Valid → addTransactionDoc maxTx doc amount cur = .ok d' →
        Contiguous d'.transactions)
    ∧ (∀ (doc : Document) (id : ℤ) (d' : Document), doc.Valid →
        deleteTransactionDoc doc id = .ok d' → Contiguous d'.transactions) := by
  refine ⟨?_, ?_, ?_⟩
  · intro maxTx doc id amount cur d' hv h
    obtain ⟨_, hne, _, _, hcont, htc, _, _⟩ := hv
    obtain ⟨new, hnew, hid1, _, _, hidx, hts, _, _⟩ := updateTransactionDoc_ok h
    obtain ⟨hctr, _, _, _, _, _⟩ := Transaction.make?_eq_some hnew
    rw [hts]
    exact contiguous_set hcont hidx hctr hid1
  · intro maxTx doc amount cur d' hv h
    obtain ⟨_, hne, _, _, hcont, htc, _, _⟩ := hv
    obtain ⟨new, hnew, _, hts, _, _⟩ := addTransactionDoc_ok h
    obtain ⟨hctr, _, _, _, _, _⟩ := Transaction.make?_eq_some hnew
    rw [hts]
    refine contiguous_append_single hcont ?_
    rw [hctr, htc]
  · intro doc id d' hv h
    obtain ⟨_, hne, _, _, hcont, htc, _, _⟩ := hv
    obtain ⟨hid1, hidN, hidx, hts, _, _⟩ := deleteTransactionDoc_ok h
    rw [htc] at hidN
    have htake : (doc.transactions.take (id - 1).toNat).length = (id - 1).toNat := by
      rw [List.length_take]
      omega
    rw [hts, List.eraseIdx_eq_take_drop_succ, decrementFrom_append _ _ htake]
    exact contiguous_delete_shift hcont hid1 hidN

theorem claim3_witness :
    Document.Valid exDoc2
      ∧ deleteTransactionDoc exDoc2 1 = .ok ⟨exHeader, [⟨1, 250, .EUR⟩], ⟨1, 250⟩⟩
      ∧ Contiguous ((⟨exHeader, [⟨1, 250, .EUR⟩], ⟨1, 250⟩⟩ : Document).transactions) :=
  ⟨exDoc2_valid, by decide,
    claim3_contiguity.2.2 exDoc2 1 _ exDoc2_valid (by decide)⟩

/-- C4 (counterexample): the monetary encoder does not use
round-half-up. For the amount 0.125 the encoded field carries 12 cents
(ties go to the even neighbour under `decimal.ROUND_HALF_EVEN`), whereas
the specified `round_half_up` encoding would carry 13 cents. -/
theorem claim4_counterexample :
    Transaction.make? 1 (mkRat 1 8) Currency.USD = some ⟨1, 12, Currency.USD⟩
      ∧ specRoundHalfUpCents (mkRat 1 8) = 13
      ∧ slice 8 20 (Transaction.payload ⟨1, 12, Currency.USD⟩)
          ≠ rjust 12 '0' (intToChars (specRoundHalfUpCents (mkRat 1 8))) := by
  have hspec : specRoundHalfUpCents (mkRat 1 8) = 13 := by
    unfold specRoundHalfUpCents
    have he : (100 : ℚ) * mkRat 1 8 + 1 / 2 = ((13 : ℤ) : ℚ) := by
      rw [Rat.mkRat_eq_div]
      norm_num
    rw [he, Int.floor_intCast]
  refine ⟨by decide, hspec, ?_⟩
  rw [hspec]
  decide

/-- C4 (amended): for every amount whose rounded cents value is
non-negative and fits the field, the encoded field equals the cents value
— obtained by rounding `100 × amount` to the nearest integer with ties to
the even neighbour (banker's rounding), not upward — zero-padded to width
12, and decoding parses that integer back (dividing by 100 recovers the
rounded amount). -/
theorem claim4_encode_decode (q : ℚ) (cur : Currency) (h0 : 0 ≤ roundCents q)
    (h12 : roundCents q < 10 ^ 12) :
    ∃ t, Transaction.make? 1 q cur = some t
      ∧ t.amountCents = roundCents q
      ∧ slice 8 20 t.payload = rjust 12 '0' (intToChars (roundCents q))
      ∧ parseNat? (slice 8 20 t.payload) = some (roundCents q).toNat
      ∧ |(roundCents q : ℚ) - 100 * q| ≤ 1 / 2
      ∧ (|(roundCents q : ℚ) - 100 * q| = 1 / 2 → roundCents q % 2 = 0) := by
  have ht : Transaction.make? 1 q cur = some ⟨1, roundCents q, cur⟩ := by
    unfold Transaction.make?
    dsimp only
    rw [if_pos ⟨by norm_num, by norm_num, h0⟩]
  have hslice : slice 8 20 (Transaction.payload ⟨1, roundCents q, cur⟩)
      = rjust 12 '0' (intToChars (roundCents q)) := by
    refine Transaction.slice_amount (by show (intToChars (1 : ℤ)).length ≤ 6; decide) ?_
    exact intToChars_length_le h0 h12 (by norm_num)
  refine ⟨⟨1, roundCents q, cur⟩, ht, rfl, hslice, ?_,
    (roundCents_char q).1, (roundCents_char q).2⟩
  rw [hslice]
  exact parseNat?_rjust_intToChars 12 h0

theorem claim4_witness :
    (0 ≤ roundCents (mkRat 1 8) ∧ roundCents (mkRat 1 8) < 10 ^ 12)
      ∧ (∃ t, Transaction.make? 1 (mkRat 1 8) Currency.USD = some t
          ∧ t.amountCents = roundCents (mkRat 1 8)
          ∧ slice 8 20 t.payload = rjust 12 '0' (intToChars (roundCents (mkRat 1 8)))
          ∧ parseNat? (slice 8 20 t.payload) = some (roundCents (mkRat 1 8)).toNat
          ∧ |(roundCents (mkRat 1 8) : ℚ) - 100 * mkRat 1 8| ≤ 1 / 2
          ∧ (|(roundCents (mkRat 1 8) : ℚ) - 100 * mkRat 1 8| = 1 / 2
              → roundCents (mkRat 1 8) % 2 = 0)) :=
  ⟨⟨by decide, by decide⟩,
    claim4_encode_decode (mkRat 1 8) Currency.USD (by decide) (by decide)⟩


/-- C5 (counterexample): on a valid one-transaction Document the claimed
boundary case fails: `delete_transaction(1)` does not produce an empty
document — recomputing the footer for zero transactions violates the
`total_counter ≥ 1` model constraint and the operation raises instead of
succeeding. -/
theorem claim5_counterexample :
    Document.Valid exDoc1 ∧ deleteTransactionDoc exDoc1 1 = .error .modelError :=
  ⟨exDoc1_valid, by decide⟩

/-- C5 (amended): for every valid N-element Document with `N ≥ 2` and
every id `1 ≤ k ≤ N`, `delete_transaction(k)` succeeds and yields an
(N−1)-element Document in which the first `k−1` transactions are
unchanged and every later transaction survives with its counter
decremented by exactly 1; in the boundary case `N = 1, k = 1` the
operation instead fails, because the recomputed footer would need
`total_counter = 0`, which the Footer model rejects. -/
theorem claim5_delete_shift :
    (∀ (doc : Document) (k : ℤ), doc.Valid → 1 ≤ k →
        k ≤ (doc.transactions.length : ℤ) → 2 ≤ doc.transactions.length →
        ∃ d', deleteTransactionDoc doc k = .ok d'
          ∧ d'.header = doc.header
          ∧ d'.transactions = doc.transactions.take (k - 1).toNat
              ++ (doc.transactions.drop ((k - 1).toNat + 1)).map
                (fun t : Transaction => { t with counter := t.counter - 1 })
          ∧ d'.transactions.length + 1 = doc.transactions.length)
    ∧ (∀ doc : Document, doc.Valid → doc.transactions.length = 1 →
        deleteTransactionDoc doc 1 = .error .modelError) := by
  constructor
  · intro doc k hv hk1 hkN hN2
    obtain ⟨_, hne, _, hwT, _, htc, _, _⟩ := hv
    obtain ⟨d', hdel, hhdr, hts⟩ := deleteTransactionDoc_shift htc hk1 hkN
      (fun t ht => (hwT t ht).2.2.1) hN2
    refine ⟨d', hdel, hhdr, hts, ?_⟩
    rw [hts]
    simp only [List.length_append, List.length_map, List.length_take, List.length_drop]
    omega
  · intro doc hv hlen
    obtain ⟨_, _, _, _, _, htc, _, _⟩ := hv
    exact deleteTransactionDoc_singleton hlen (by rw [htc, hlen]; rfl)

theorem claim5_witness :
    Document.Valid exDoc2
      ∧ (∃ d', deleteTransactionDoc exDoc2 2 = .ok d'
          ∧ d'.header = exDoc2.header
          ∧ d'.transactions = exDoc2.transactions.take (2 - 1 : ℤ).toNat
              ++ (exDoc2.transactions.drop (((2 : ℤ) - 1).toNat + 1)).map
                (fun t : Transaction => { t with counter := t.counter - 1 })
          ∧ d'.transactions.length + 1 = exDoc2.transactions.length) :=
  ⟨exDoc2_valid,
    claim5_delete_shift.1 exDoc2 2 exDoc2_valid (by decide) (by decide) (by decide)⟩

/-- C6: `add_transaction` fails with the capacity error exactly when the
current `footer.total_counter` equals `max_transactions`; otherwise a
successful addition appends one transaction numbered `total_counter + 1`
and recomputes the footer. `update_transaction` and `delete_transaction`
never raise the capacity error. -/
theorem claim6_capacity :
    (∀ (maxTx : ℕ) (doc : Document) (amount : ℚ) (cur : Currency),
        addTransactionDoc maxTx doc amount cur = .error .capacityError
          ↔ doc.footer.total_counter = (maxTx : ℤ))
    ∧ (∀ (maxTx : ℕ) (doc : Document) (amount : ℚ) (cur : Currency) (d' : Document),
        addTransactionDoc maxTx doc amount cur = .ok d' →
        ∃ new, d'.transactions = doc.transactions ++ [new]
          ∧ new.counter = doc.footer.total_counter + 1
          ∧ createFooter d'.transactions = some d'.footer)
    ∧ (∀ (maxTx : ℕ) (doc : Document) (id : ℤ) (amount : ℚ) (cur : Currency),
        updateTransactionDoc maxTx doc id amount cur ≠ .error .capacityError)
    ∧ (∀ (doc : Document) (id : ℤ),
        deleteTransactionDoc doc id ≠ .error .capacityError) := by
  refine ⟨addTransactionDoc_capacity_iff, ?_, updateTransactionDoc_ne_capacity,
    deleteTransactionDoc_ne_capacity⟩
  intro maxTx doc amount cur d' h
  obtain ⟨new, hnew, _, hts, _, hf⟩ := addTransactionDoc_ok h
  obtain ⟨hctr, _, _, _, _, _⟩ := Transaction.make?_eq_some hnew
  exact ⟨new, hts, hctr, hf⟩

theorem claim6_witness :
    addTransactionDoc 1 exDoc1 5 Currency.USD = .error .capacityError
      ∧ updateTransactionDoc 20000 exDoc1 1 5 Currency.USD ≠ .error .capacityError
      ∧ deleteTransactionDoc exDoc1 1 ≠ .error .capacityError :=
  ⟨(claim6_capacity.1 1 exDoc1 5 Currency.USD).mpr (by decide),
    claim6_capacity.2.2.1 20000 exDoc1 1 5 Currency.USD,
    claim6_capacity.2.2.2 exDoc1 1⟩


/-- C7 (counterexample): a supplied header field is not sanitized on
update. Because the assignment bypasses the model validators, updating
the name to " bob" stores the string verbatim — the sanitizer would have
produced "Bob" — so the claimed trim-and-title-case of supplied fields
does not happen. -/
theorem claim7_counterexample :
    updateHeaderOp 121 20000 (writeDocument exDoc1) [' ', 'b', 'o', 'b'] [] [] []
        = .ok (1, 1, writeDocument
            ⟨⟨[' ', 'b', 'o', 'b'], exHeader.surname, exHeader.patrynomic,
              exHeader.address⟩, exDoc1.transactions, exDoc1.footer⟩)
      ∧ sanitize [' ', 'b', 'o', 'b'] = ['B', 'o', 'b']
      ∧ [' ', 'b', 'o', 'b'] ≠ sanitize [' ', 'b', 'o', 'b'] := by
  refine ⟨by decide, by decide, by decide⟩

/-- C7 (amended): `update_header` with no supplied (non-empty) field
performs zero storage reads and zero storage writes and leaves the
stored text unchanged; when at least one non-empty field is supplied the
document is re-read, only the supplied non-empty header fields change —
each assigned verbatim, without the trim/title-case sanitization — and
all other header fields, the transactions and the footer are unchanged. -/
theorem claim7_update_header :
    (∀ (maxLen maxTx : ℕ) (text : List Char),
        updateHeaderOp maxLen maxTx text [] [] [] [] = .ok (0, 0, text))
    ∧ (∀ (doc : Document) (name surname patrynomic address : List Char),
        (updateHeaderDoc doc name surname patrynomic address).transactions
            = doc.transactions
          ∧ (updateHeaderDoc doc name surname patrynomic address).footer = doc.footer
          ∧ (updateHeaderDoc doc name surname patrynomic address).header.name
              = (if name.isEmpty then doc.header.name else name)
          ∧ (updateHeaderDoc doc name surname patrynomic address).header.surname
              = (if surname.isEmpty then doc.header.surname else surname)
          ∧ (updateHeaderDoc doc name surname patrynomic address).header.patrynomic
              = (if patrynomic.isEmpty then doc.header.patrynomic else patrynomic)
          ∧ (updateHeaderDoc doc name surname patrynomic address).header.address
              = (if address.isEmpty then doc.header.address else address))
    ∧ (∀ (maxLen maxTx : ℕ) (text name surname patrynomic address : List Char)
        (doc : Document),
        ¬(name.isEmpty ∧ surname.isEmpty ∧ patrynomic.isEmpty ∧ address.isEmpty) →
        readDoc maxLen maxTx text = .ok doc →
        updateHeaderOp maxLen maxTx text name surname patrynomic address
          = .ok (1, 1, writeDocument
              (updateHeaderDoc doc name surname patrynomic address))) := by
  refine ⟨?_, ?_, ?_⟩
  · intro maxLen maxTx text
    unfold updateHeaderOp
    rw [if_pos ⟨rfl, rfl, rfl, rfl⟩]
  · intro doc name surname patrynomic address
    unfold updateHeaderDoc
    dsimp only
    refine ⟨rfl, rfl, ?_, ?_, ?_, ?_⟩ <;>
      (split <;> split <;> split <;> split <;> rfl)
  · intro maxLen maxTx text name surname patrynomic address doc hsup hread
    unfold updateHeaderOp
    rw [if_neg hsup, hread]

theorem claim7_witness :
    ¬(([' ', 'b', 'o', 'b'] : List Char).isEmpty ∧ ([] : List Char).isEmpty
        ∧ ([] : List Char).isEmpty ∧ ([] : List Char).isEmpty)
      ∧ readDoc 121 20000 (writeDocument exDoc1) = .ok exDoc1
      ∧ updateHeaderOp 121 20000 (writeDocument exDoc1) [' ', 'b', 'o', 'b'] [] [] []
          = .ok (1, 1, writeDocument
              (updateHeaderDoc exDoc1 [' ', 'b', 'o', 'b'] [] [] [])) :=
  ⟨by decide, by decide,
    claim7_update_header.2.2 121 20000 (writeDocument exDoc1)
      [' ', 'b', 'o', 'b'] [] [] [] exDoc1 (by decide) (by decide)⟩

/-- C8: whenever some raw line exceeds the configured length limit, the
Validator fails with a line-too-long error naming the index of the first
such line — the length check runs over all lines before the
header-prefix, footer-prefix, record-count and transaction-presence
checks, so the error is `lineTooLong` regardless of any other defect. -/
theorem claim8_line_too_long (maxLen maxTx : ℕ) (lines : List (List Char))
    (i : ℕ) (li : List Char) (hi : lines[i]? = some li)
    (hlong : maxLen < li.length) :
    ∃ j lj, j ≤ i ∧ lines[j]? = some lj ∧ maxLen < lj.length
      ∧ (∀ k lk, k < j → lines[k]? = some lk → lk.length ≤ maxLen)
      ∧ validate maxLen maxTx lines = .error (.lineTooLong j) := by
  obtain ⟨j, lj, hj1, hj2, hj3, hj4, hj5⟩ := firstLongIdx_spec hi hlong
  exact ⟨j, lj, hj1, hj2, hj3, hj4, validate_of_firstLongIdx hj5⟩

theorem claim8_witness :
    ([['x', 'x', 'x', 'x', 'x']] : List (List Char))[0]? = some ['x', 'x', 'x', 'x', 'x']
      ∧ 3 < (['x', 'x', 'x', 'x', 'x'] : List Char).length
      ∧ (∃ j lj, j ≤ 0 ∧ ([['x', 'x', 'x', 'x', 'x']] : List (List Char))[j]? = some lj
          ∧ 3 < lj.length
          ∧ (∀ k lk, k < j →
              ([['x', 'x', 'x', 'x', 'x']] : List (List Char))[k]? = some lk
                → lk.length ≤ 3)
          ∧ validate 3 20000 [['x', 'x', 'x', 'x', 'x']] = .error (.lineTooLong j)) :=
  ⟨by decide, by decide,
    claim8_line_too_long 3 20000 [['x', 'x', 'x', 'x', 'x']] 0 ['x', 'x', 'x', 'x', 'x']
      (by decide) (by decide)⟩

/-- C9: for every valid Document each serialized line — the header, every
transaction and the footer — is exactly 121 characters long, 120 payload
characters plus the single trailing delimiter, and the serialized text is
their concatenation with no separators, hence `121 × (N + 2)` characters
in total. -/
theorem claim9_line_lengths (d : Document) (hv : d.Valid) :
    d.header.render.length = 121
      ∧ (∀ t ∈ d.transactions, t.render.length = 121)
      ∧ d.footer.render.length = 121
      ∧ (writeDocument d).length = 121 * (d.transactions.length + 2) := by
  obtain ⟨hwH, hne, hlen, hwT, hcont, htc, hcs, hsum⟩ := hv
  have hcs0 : 0 ≤ d.footer.control_sumCents := by
    rw [hcs]
    exact sumCents_nonneg (fun t ht => (hwT t ht).2.2.1)
  have htc0 : (0 : ℤ) ≤ d.footer.total_counter := by rw [htc]; positivity
  have htc6 : d.footer.total_counter < 10 ^ 6 := by
    rw [htc]
    exact_mod_cast (by omega : d.transactions.length < 10 ^ 6)
  have hH : d.header.render.length = 121 := by
    simp [Header.render, headerPayload_length hwH]
  have hT : ∀ t ∈ d.transactions, t.render.length = 121 := by
    intro t ht
    simp [Transaction.render, txPayload_length (hwT t ht)]
  have hF : d.footer.render.length = 121 := by
    simp [Footer.render, footerPayload_length htc0 htc6 hcs0 (by rw [hcs]; exact hsum)]
  refine ⟨hH, hT, hF, ?_⟩
  simp only [writeDocument, List.length_append, hH, hF, flatten_render_length hT]
  ring

theorem claim9_witness :
    Document.Valid exDoc1
      ∧ (exDoc1.header.render.length = 121
          ∧ (∀ t ∈ exDoc1.transactions, t.render.length = 121)
          ∧ exDoc1.footer.render.length = 121
          ∧ (writeDocument exDoc1).length = 121 * (exDoc1.transactions.length + 2)) :=
  ⟨exDoc1_valid, claim9_line_lengths exDoc1 exDoc1_valid⟩

end FileProc
